import Mathlib

/-!
Verification of the DXF tag-stream parsing and entity reconstruction core
described in spec.md, as exercised by tests/test_02_dxf_graphics/test_207_attdef.py.
The core subsystem (tag model, tag grouping, schema registry, DXF namespace,
tag writer, embedded-object support) is modelled from the specification text,
since only its tests are available; every definition carries a note naming the
spec section it follows.
-/

set_option maxHeartbeats 1600000

namespace DxfCore

/-- Modelled from the spec: DXF versions with their ordering (the real module
`ezdxf.lldxf.const` is missing; only the version bracket order matters). -/
inductive DXFVersion where
  | R12
  | R2000
  | R2004
  | R2007
  | R2013
  | R2018
deriving DecidableEq, Repr

/-- Modelled from the spec: rank of a DXF version, for bracket comparisons. -/
def DXFVersion.rank : DXFVersion → Nat
  | .R12 => 0
  | .R2000 => 1
  | .R2004 => 2
  | .R2007 => 3
  | .R2013 => 4
  | .R2018 => 5

/-- Version order as a Boolean (spec section 3, min/max version brackets). -/
def vle (a b : DXFVersion) : Bool := decide (a.rank ≤ b.rank)

/-- Modelled from the spec: value kinds determined by group-code ranges
(spec section 3, Tag data model; module `ezdxf.lldxf.types` is missing). -/
inductive ValueKind where
  | kString
  | kInt
  | kFloat
  | kVec
deriving DecidableEq, Repr

/-- Modelled from the spec: a tag value, a variant of string, integer, float
or coordinate triple.  DXF doubles are modelled as rationals: every claim
only stores and compares them, no float arithmetic is involved. -/
inductive DXFValue where
  | str (s : String)
  | int (i : Int)
  | float (q : Rat)
  | vec (x y z : Rat)
deriving DecidableEq, Repr

/-- The kind of a concrete value. -/
def kindOf : DXFValue → ValueKind
  | .str _ => .kString
  | .int _ => .kInt
  | .float _ => .kFloat
  | .vec _ _ _ => .kVec

/-- Modelled from the spec: a tag is a (group-code, value) pair
(spec section 3, Tag data model). -/
structure DXFTag where
  code : Nat
  value : DXFValue
deriving DecidableEq, Repr

/-- Modelled from the spec: the error taxonomy of spec section 7. -/
inductive DXFError where
  | MalformedTag
  | UnknownEntityType
  | SchemaViolation
  | AttributeNotSet
  | InvalidAttributeForVersion
  | UnknownAttribute
  | InvalidValueKind
deriving DecidableEq, Repr

/-- Association-list lookup for namespace entries. -/
def lookupE : List (String × DXFValue) → String → Option DXFValue
  | [], _ => none
  | (m, v) :: rest, n => if m = n then some v else lookupE rest n

/-- Replace the entry for a name, or append it; used by namespace writes,
so that a later write to the same name wins (spec section 4.3,
duplicate tags: last one wins). -/
def setEntry : List (String × DXFValue) → String → DXFValue → List (String × DXFValue)
  | [], n, v => [(n, v)]
  | (m, w) :: rest, n, v => if m = n then (n, v) :: rest else (m, w) :: setEntry rest n v

/-- Remove the entry for a name (spec section 4.4, discard). -/
def dropEntry : List (String × DXFValue) → String → List (String × DXFValue)
  | [], _ => []
  | (m, w) :: rest, n => if m = n then dropEntry rest n else (m, w) :: dropEntry rest n

/-- Modelled from the spec: one AttributeSpec entry of the schema registry
(spec section 3: group code, value kind, default, version bracket, optional
flag; module `ezdxf.lldxf.attributes` is missing). -/
structure DXFAttr where
  aname : String
  code : Nat
  kind : ValueKind
  adefault : Option DXFValue
  minVersion : DXFVersion
  maxVersion : DXFVersion
  optional : Bool
deriving DecidableEq, Repr

/-- Modelled from the spec: a named subclass block of an entity schema. -/
structure SubclassSpec where
  sname : String
  attrs : List DXFAttr
deriving DecidableEq, Repr

/-- Modelled from the spec: a per-entity-type schema: base attributes
(handle, owner) plus ordered named subclasses (spec section 3). -/
structure EntitySchema where
  etype : String
  baseAttrs : List DXFAttr
  subclasses : List SubclassSpec
deriving DecidableEq, Repr

/-- All attributes of a schema, in fixed export order. -/
def allAttrs (es : EntitySchema) : List DXFAttr :=
  es.baseAttrs ++ (es.subclasses.map SubclassSpec.attrs).flatten

/-- Find an attribute spec by name. -/
def findAttr (es : EntitySchema) (n : String) : Option DXFAttr :=
  (allAttrs es).find? (fun a => a.aname = n)

/-- Modelled from the spec: the subclass structure actually used at a given
version: R2000 and later use subclass markers, R12 uses one flat block
(spec section 4.2: tags before the first subclass marker form the base
bucket; test data ENTITY_R12 has no code-100 tags at all). -/
def effectiveSubclasses (es : EntitySchema) (v : DXFVersion) :
    List (Option String × List DXFAttr) :=
  if vle .R2000 v then
    (none, es.baseAttrs) :: es.subclasses.map (fun s => (some s.sname, s.attrs))
  else
    [(none, allAttrs es)]

/-- Modelled from the spec: the per-entity typed attribute store
(spec section 3, DXFNamespace): explicit values only; reading an unset
attribute falls back to the schema default. -/
structure DXFNamespace where
  entries : List (String × DXFValue)
deriving DecidableEq, Repr

/-- True when the attribute has an explicitly set value (spec section 4.4). -/
def DXFNamespace.hasExplicit (ns : DXFNamespace) (n : String) : Bool :=
  (lookupE ns.entries n).isSome

/-- Modelled from the spec: attribute read (spec section 4.4): explicit value
if set, else the schema default, else AttributeNotSetError. -/
def nsGet (es : EntitySchema) (ns : DXFNamespace) (n : String) : Except DXFError DXFValue :=
  match lookupE ns.entries n with
  | some v => .ok v
  | none =>
    match findAttr es n with
    | none => .error .UnknownAttribute
    | some a =>
      match a.adefault with
      | some d => .ok d
      | none => .error .AttributeNotSet

/-- Attribute read returning the untouched namespace as well: the spec says a
read never marks the attribute as set, which the pair makes explicit. -/
def nsGetS (es : EntitySchema) (ns : DXFNamespace) (n : String) :
    (Except DXFError DXFValue) × DXFNamespace :=
  (nsGet es ns n, ns)

/-- Modelled from the spec: attribute write (spec section 4.4): validates the
value kind against the schema (a coordinate attribute only accepts a whole
vector, so a partial write of a lone component is rejected) and marks the
attribute explicit. -/
def nsSet (es : EntitySchema) (ns : DXFNamespace) (n : String) (v : DXFValue) :
    Except DXFError DXFNamespace :=
  match findAttr es n with
  | none => .error .UnknownAttribute
  | some a =>
    if kindOf v = a.kind then .ok ⟨setEntry ns.entries n v⟩
    else .error .InvalidValueKind

/-- Modelled from the spec: discard clears an attribute back to its default
without error (spec section 4.4). -/
def nsDiscard (ns : DXFNamespace) (n : String) : DXFNamespace :=
  ⟨dropEntry ns.entries n⟩

/-- A namespace operation, for stating invariants over operation sequences. -/
inductive NsOp where
  | setA (n : String) (v : DXFValue)
  | getA (n : String)
  | discardA (n : String)

/-- Apply one operation; a failed write leaves the namespace unchanged. -/
def applyOp (es : EntitySchema) (ns : DXFNamespace) : NsOp → DXFNamespace
  | .setA n v =>
    match nsSet es ns n v with
    | .ok ns2 => ns2
    | .error _ => ns
  | .getA n => (nsGetS es ns n).2
  | .discardA n => nsDiscard ns n

/-- Apply a sequence of namespace operations. -/
def applyOps (es : EntitySchema) (ops : List NsOp) (ns : DXFNamespace) : DXFNamespace :=
  ops.foldl (applyOp es) ns

/-- True for float values. -/
def isFloatV : DXFValue → Bool
  | .float _ => true
  | _ => false

/-- The float payload of a value (0 for non-floats; only read under an
isFloatV guard). -/
def floatOf : DXFValue → Rat
  | .float q => q
  | _ => 0

/-- Modelled from the spec: the tag compiler step of the Tag Stream Reader:
a coordinate attribute spans 2 or 3 consecutive tags with codes c, c+10,
c+20 in the vector code range, combined into one vector value; a missing z
defaults to 0.0 (spec section 3, Tag data model). -/
def compileVec : List DXFTag → List DXFTag
  | ⟨c, .float x⟩ :: ⟨c2, .float y⟩ :: ⟨c3, .float z⟩ :: rest =>
    if 10 ≤ c ∧ c ≤ 19 ∧ c2 = c + 10 then
      if c3 = c + 20 then
        ⟨c, .vec x y z⟩ :: compileVec rest
      else
        ⟨c, .vec x y 0⟩ :: compileVec (⟨c3, .float z⟩ :: rest)
    else
      ⟨c, .float x⟩ :: compileVec (⟨c2, .float y⟩ :: ⟨c3, .float z⟩ :: rest)
  | [⟨c, .float x⟩, ⟨c2, .float y⟩] =>
    if 10 ≤ c ∧ c ≤ 19 ∧ c2 = c + 10 then
      [⟨c, .vec x y 0⟩]
    else
      [⟨c, .float x⟩, ⟨c2, .float y⟩]
  | t :: rest => t :: compileVec rest
  | [] => []

/-- The subclass name carried by a code-100 marker tag. -/
def strValOf (t : DXFTag) : String :=
  match t.value with
  | .str s => s
  | _ => ""

/-- Modelled from the spec: one-pass grouping of a flat tag list into
subclass buckets: every code-100 tag opens a new bucket named by its value,
tags before the first marker form the implicit base bucket
(spec section 4.2).  The accumulator keeps the current bucket reversed. -/
def groupSub : List DXFTag → List DXFTag → Option String →
    List (Option String × List DXFTag) → List (Option String × List DXFTag)
  | [], cur, nm, done => done ++ [(nm, cur.reverse)]
  | t :: rest, cur, nm, done =>
    if t.code = 100 then
      groupSub rest [] (some (strValOf t)) (done ++ [(nm, cur.reverse)])
    else
      groupSub rest (t :: cur) nm done

/-- Group a marker-delimited tag list into subclass buckets. -/
def splitSubclasses (l : List DXFTag) : List (Option String × List DXFTag) :=
  groupSub l [] none []

/-- Modelled from the spec: the extended-tags structure of one entity record:
ordered subclass buckets, an optional embedded-object sub-stream, tags
rescued after a structural recovery, and trailing XDATA (spec section 3). -/
structure ExtendedTags where
  buckets : List (Option String × List DXFTag)
  embedded : Option (List DXFTag)
  unknownRest : List DXFTag
  xdata : List DXFTag
deriving DecidableEq, Repr

/-- True for tags of the XDATA region (group codes 1000 and above). -/
def isXData (t : DXFTag) : Bool := decide (1000 ≤ t.code)

/-- Modelled from the spec: grouping of one entity record (spec section 4.2):
trailing XDATA is split off first; a code-101 tag switches into embedded
mode collecting the rest of the record; a second code-101 marker is a
structural impossibility: SchemaViolationError in strict mode, while
tolerant mode truncates the embedded region and keeps the remaining tags
as unknown tags (spec section 7). -/
def groupTags (strict : Bool) (tags : List DXFTag) : Except DXFError ExtendedTags :=
  let body := tags.takeWhile (fun t => !isXData t)
  let xd := tags.dropWhile (fun t => !isXData t)
  let pre := body.takeWhile (fun t => decide (t.code ≠ 101))
  let rest := body.dropWhile (fun t => decide (t.code ≠ 101))
  let buckets := splitSubclasses pre
  match rest with
  | [] => .ok ⟨buckets, none, [], xd⟩
  | _ :: afterMarker =>
    let emb := afterMarker.takeWhile (fun t => decide (t.code ≠ 101))
    let over := afterMarker.dropWhile (fun t => decide (t.code ≠ 101))
    match over with
    | [] => .ok ⟨buckets, some emb, [], xd⟩
    | _ :: _ =>
      if strict then .error .SchemaViolation
      else .ok ⟨buckets, some emb, over, xd⟩

/-- Modelled from the spec: the Entity Factory's per-subclass tag matching
(spec section 4.3): a tag whose code matches an AttributeSpec entry that is
not version-gated (min version at most the declared document version) and
whose value has the declared kind is written into the namespace entries,
later duplicates winning; any other tag is kept in an unknown-tags overflow
list in source order. -/
def matchTags (v : DXFVersion) (attrs : List DXFAttr) :
    List DXFTag → List (String × DXFValue) →
    List (String × DXFValue) × List DXFTag
  | [], acc => (acc, [])
  | t :: rest, acc =>
    match attrs.find? (fun a =>
        decide (a.code = t.code) && vle a.minVersion v &&
        decide (kindOf t.value = a.kind)) with
    | some a => matchTags v attrs rest (setEntry acc a.aname t.value)
    | none =>
      let r := matchTags v attrs rest acc
      (r.1, t :: r.2)

/-- Modelled from the spec: walk the grouped buckets against the effective
subclass structure of the schema; a bucket whose name matches its schema
slot is matched attribute-by-attribute, a mismatched bucket is kept whole
as unknown tags, and buckets beyond the schema are dumped to a loose
overflow list (spec section 4.3). -/
def matchBucketList (v : DXFVersion) :
    List (Option String × List DXFAttr) → List (Option String × List DXFTag) →
    List (String × DXFValue) →
    List (String × DXFValue) × List (List DXFTag) × List DXFTag
  | effs, [], acc => (acc, effs.map (fun _ => []), [])
  | [], bs, acc => (acc, [], (bs.map Prod.snd).flatten)
  | (n1, attrs) :: effs, (n2, ts) :: bs, acc =>
    if n1 = n2 then
      let m := matchTags v attrs ts acc
      let r := matchBucketList v effs bs m.1
      (r.1, m.2 :: r.2.1, r.2.2)
    else
      let r := matchBucketList v effs bs acc
      (r.1, ts :: r.2.1, r.2.2)

/-- Modelled from the spec: the fixed, hard-coded AttributeSpec of the one
embedded structure type, an embedded MTEXT-like text object
(spec section 4.6; group codes follow the EMBEDDED_MTEXT test data). -/
def embeddedMTextAttrs : List DXFAttr :=
  [ ⟨"insert", 10, .kVec, some (.vec 0 0 0), .R12, .R2018, true⟩,
    ⟨"char_height", 40, .kFloat, some (.float 1), .R12, .R2018, true⟩,
    ⟨"width", 41, .kFloat, some (.float 0), .R12, .R2018, true⟩,
    ⟨"defined_height", 46, .kFloat, some (.float 0), .R12, .R2018, true⟩,
    ⟨"attachment_point", 71, .kInt, some (.int 1), .R12, .R2018, true⟩,
    ⟨"flow_direction", 72, .kInt, some (.int 1), .R12, .R2018, true⟩,
    ⟨"text", 1, .kString, some (.str ""), .R12, .R2018, true⟩,
    ⟨"style", 7, .kString, some (.str "STANDARD"), .R12, .R2018, true⟩,
    ⟨"line_spacing_style", 73, .kInt, some (.int 1), .R12, .R2018, true⟩,
    ⟨"line_spacing_factor", 44, .kFloat, some (.float 1), .R12, .R2018, true⟩ ]

/-- The embedded text structure viewed as a flat pseudo-schema. -/
def embeddedMTextSchema : EntitySchema :=
  ⟨"EMBEDDED_MTEXT", embeddedMTextAttrs, []⟩

/-- Modelled from the spec: a typed entity: its schema, its namespace of
explicit attribute values, per-subclass unknown-tag overflow, loose unknown
tags recovered by tolerant grouping, the optional embedded object (its own
namespace plus unknown tags), and trailing XDATA (spec section 3). -/
structure DXFEntity where
  schema : EntitySchema
  ns : DXFNamespace
  subUnknown : List (List DXFTag)
  looseUnknown : List DXFTag
  embedded : Option (DXFNamespace × List DXFTag)
  xdata : List DXFTag
deriving DecidableEq, Repr

/-- Modelled from the spec: the full parse of one entity record
(spec sections 4.1 to 4.3): compile coordinate tags, group the record, then
match each bucket against the schema at the declared document version; the
embedded sub-stream is matched against the fixed embedded-text spec. -/
def loadEntity (es : EntitySchema) (v : DXFVersion) (strict : Bool)
    (tags : List DXFTag) : Except DXFError DXFEntity :=
  match groupTags strict (compileVec tags) with
  | .error e => .error e
  | .ok xt =>
    let effs := effectiveSubclasses es v
    let m := matchBucketList v effs xt.buckets []
    let emb :=
      match xt.embedded with
      | none => none
      | some etags =>
        let em := matchTags v embeddedMTextAttrs etags []
        some (DXFNamespace.mk em.1, em.2)
    .ok ⟨es, ⟨m.1⟩, m.2.1, m.2.2 ++ xt.unknownRest, emb, xt.xdata⟩

/-- Modelled from the spec: serialization of one attribute value: a vector
value spans the three codes c, c+10, c+20; every other value is one tag
(spec section 3). -/
def emitTags (code : Nat) (v : DXFValue) : List DXFTag :=
  match v with
  | .vec x y z => [⟨code, .float x⟩, ⟨code + 10, .float y⟩, ⟨code + 20, .float z⟩]
  | w => [⟨code, w⟩]

/-- Modelled from the spec: export of one attribute (spec section 4.5): only
attributes whose version bracket contains the target version are emitted;
an explicit value is always emitted; an unset attribute is suppressed when
the optional mode is on and the attribute is marked optional, and otherwise
its schema default is emitted (an unset mandatory attribute without default
emits nothing). -/
def exportAttr (v : DXFVersion) (opt : Bool) (ns : DXFNamespace) (a : DXFAttr) :
    List DXFTag :=
  if vle a.minVersion v && vle v a.maxVersion then
    match lookupE ns.entries a.aname with
    | some w => emitTags a.code w
    | none =>
      if opt && a.optional then []
      else
        match a.adefault with
        | some d => emitTags a.code d
        | none => []
  else []

/-- Export a list of attributes in schema order (spec section 4.5). -/
def exportAttrs (v : DXFVersion) (opt : Bool) (ns : DXFNamespace)
    (attrs : List DXFAttr) : List DXFTag :=
  (attrs.map (exportAttr v opt ns)).flatten

/-- Export one effective subclass: its code-100 marker when named, its
attributes in schema order, then its unknown tags (spec section 4.5). -/
def exportBucket (v : DXFVersion) (opt : Bool) (ns : DXFNamespace) :
    (Option String × List DXFAttr) × List DXFTag → List DXFTag
  | ((nm, attrs), unk) =>
    (match nm with
     | some s => [⟨100, .str s⟩]
     | none => []) ++ exportAttrs v opt ns attrs ++ unk

/-- Zip effective subclasses with their unknown-tag slots, padding with
empty slots. -/
def zipPad : List (Option String × List DXFAttr) → List (List DXFTag) →
    List ((Option String × List DXFAttr) × List DXFTag)
  | [], _ => []
  | a :: as, [] => (a, []) :: zipPad as []
  | a :: as, u :: us => (a, u) :: zipPad as us

/-- Modelled from the spec: entity export (spec section 4.5): subclasses in
fixed schema order; the embedded-object sub-stream re-emitted after its
host subclass, preceded by the single code-101 marker tag; then loose
unknown tags and trailing XDATA. -/
def exportEntity (e : DXFEntity) (v : DXFVersion) (opt : Bool) : List DXFTag :=
  let effs := effectiveSubclasses e.schema v
  ((zipPad effs e.subUnknown).map (exportBucket v opt e.ns)).flatten ++
  (match e.embedded with
   | none => []
   | some (ens, eunk) =>
     ⟨101, .str "Embedded Object"⟩ :: (exportAttrs v opt ens embeddedMTextAttrs ++ eunk)) ++
  e.looseUnknown ++ e.xdata

/-- Modelled from the spec: the ATTDEF entity schema of the registry (module
`ezdxf.entities.attrib` is missing; attribute names, group codes and the
defaults layer "0", color 256, insert (0,0,0) follow the spec scenario and
the ATTDEF test data). -/
def attdefSchema : EntitySchema :=
  { etype := "ATTDEF"
    baseAttrs :=
      [ ⟨"handle", 5, .kString, none, .R12, .R2018, false⟩,
        ⟨"owner", 330, .kString, none, .R2000, .R2018, false⟩ ]
    subclasses :=
      [ ⟨"AcDbEntity",
          [ ⟨"layer", 8, .kString, some (.str "0"), .R12, .R2018, true⟩,
            ⟨"linetype", 6, .kString, some (.str "BYLAYER"), .R12, .R2018, true⟩,
            ⟨"color", 62, .kInt, some (.int 256), .R12, .R2018, true⟩,
            ⟨"shadow_mode", 284, .kInt, none, .R2007, .R2018, true⟩ ]⟩,
        ⟨"AcDbText",
          [ ⟨"insert", 10, .kVec, some (.vec 0 0 0), .R12, .R2018, true⟩,
            ⟨"height", 40, .kFloat, some (.float 1), .R12, .R2018, true⟩,
            ⟨"text", 1, .kString, some (.str ""), .R12, .R2018, true⟩,
            ⟨"style", 7, .kString, some (.str "STANDARD"), .R12, .R2018, true⟩,
            ⟨"halign", 72, .kInt, some (.int 0), .R12, .R2018, true⟩ ]⟩,
        ⟨"AcDbAttributeDefinition",
          [ ⟨"prompt", 3, .kString, some (.str ""), .R12, .R2018, true⟩,
            ⟨"tag", 2, .kString, some (.str ""), .R12, .R2018, true⟩,
            ⟨"flags", 70, .kInt, some (.int 0), .R12, .R2018, true⟩,
            ⟨"valign", 74, .kInt, some (.int 0), .R12, .R2018, true⟩,
            ⟨"align_point", 11, .kVec, some (.vec 0 0 0), .R12, .R2018, true⟩ ]⟩ ] }

/-- Modelled from the spec: a second, simpler registry entry, so that the
registry quantification is not about a one-element registry. -/
def lineSchema : EntitySchema :=
  { etype := "LINE"
    baseAttrs :=
      [ ⟨"handle", 5, .kString, none, .R12, .R2018, false⟩,
        ⟨"owner", 330, .kString, none, .R2000, .R2018, false⟩ ]
    subclasses :=
      [ ⟨"AcDbEntity",
          [ ⟨"layer", 8, .kString, some (.str "0"), .R12, .R2018, true⟩,
            ⟨"linetype", 6, .kString, some (.str "BYLAYER"), .R12, .R2018, true⟩,
            ⟨"color", 62, .kInt, some (.int 256), .R12, .R2018, true⟩ ]⟩,
        ⟨"AcDbLine",
          [ ⟨"start", 10, .kVec, some (.vec 0 0 0), .R12, .R2018, true⟩,
            ⟨"end", 11, .kVec, some (.vec 0 0 0), .R12, .R2018, true⟩ ]⟩ ] }

/-- Modelled from the spec: the process-wide schema registry
(spec section 4.3; the real registry is far larger). -/
def schemaRegistry : List EntitySchema := [attdefSchema, lineSchema]

/-- Modelled from the spec: the schema of the virtual MTEXT entity view
produced for an embedded text object (spec section 4.6): graphic attributes
shared with the host plus the embedded text attributes. -/
def mtextSchema : EntitySchema :=
  { etype := "MTEXT"
    baseAttrs := []
    subclasses :=
      [ ⟨"AcDbEntity",
          [ ⟨"layer", 8, .kString, some (.str "0"), .R12, .R2018, true⟩,
            ⟨"linetype", 6, .kString, some (.str "BYLAYER"), .R12, .R2018, true⟩,
            ⟨"color", 62, .kInt, some (.int 256), .R12, .R2018, true⟩ ]⟩,
        ⟨"AcDbMText", embeddedMTextAttrs⟩ ] }

/-- Copy one graphic attribute value of the host into an entry list, reading
through the host namespace so that an unset host attribute contributes its
default (spec section 4.6, copy-on-read). -/
def copyAttrVal (host : DXFEntity) (n : String) (l : List (String × DXFValue)) :
    List (String × DXFValue) :=
  match nsGet host.schema host.ns n with
  | .ok v => setEntry l n v
  | .error _ => l

/-- Modelled from the spec: the secondary virtual MTEXT entity view of an
embedded text object: an independent entity value whose graphic attributes
layer and color are copied from the host on creation, not shared by
reference (spec section 4.6). -/
def virtualMtextEntity (host : DXFEntity) : Option DXFEntity :=
  match host.embedded with
  | none => none
  | some (ens, eunk) =>
    some
      { schema := mtextSchema
        ns := ⟨copyAttrVal host "color" (copyAttrVal host "layer" ens.entries)⟩
        subUnknown := []
        looseUnknown := eunk
        embedded := none
        xdata := [] }

/-- Modelled from the spec: decoding of MTEXT content: every backslash-P
paragraph separator becomes a newline (test_get_plain_mtext test data). -/
def decodeMTextP : List Char → List Char
  | '\\' :: 'P' :: rest => '\n' :: decodeMTextP rest
  | c :: rest => c :: decodeMTextP rest
  | [] => []

/-- MTEXT plain-text decoding on strings. -/
def plainMtextStr (s : String) : String :=
  ⟨decodeMTextP s.data⟩

/-- Modelled from the spec: the plain-text accessor of the host entity for
its embedded text content. -/
def plainMtext (host : DXFEntity) : Option String :=
  match host.embedded with
  | none => none
  | some (ens, _) =>
    match nsGet embeddedMTextSchema ens "text" with
    | .ok (.str s) => some (plainMtextStr s)
    | _ => none

/-- Modelled from the spec: the plain-text accessor of a (virtual) MTEXT
entity. -/
def plainText (e : DXFEntity) : Option String :=
  match nsGet e.schema e.ns "text" with
  | .ok (.str s) => some (plainMtextStr s)
  | _ => none

/-- Well-formedness of one attribute spec, as a Boolean: codes avoid the
marker and XDATA ranges, vector attributes live in the vector base-code
range, non-vector attributes avoid the whole coordinate code range, and a
declared default has the declared kind. -/
def wfAttrB (a : DXFAttr) : Bool :=
  decide (a.code ≠ 100) && decide (a.code ≠ 101) && decide (a.code < 1000) &&
  (if a.kind = .kVec then decide (10 ≤ a.code ∧ a.code ≤ 19)
   else !(decide (10 ≤ a.code ∧ a.code ≤ 39))) &&
  (match a.adefault with
   | some d => decide (kindOf d = a.kind)
   | none => true)

/-- Well-formedness of a schema: pairwise distinct attribute names and group
codes, and every attribute well formed. -/
def wfSchemaB (es : EntitySchema) : Bool :=
  ((allAttrs es).map DXFAttr.aname).Nodup &&
  ((allAttrs es).map DXFAttr.code).Nodup &&
  (allAttrs es).all wfAttrB

/-- A namespace is well typed for an attribute list when every explicit value
of a listed attribute has the declared kind. -/
def wtB (attrs : List DXFAttr) (ns : DXFNamespace) : Bool :=
  attrs.all (fun a =>
    match lookupE ns.entries a.aname with
    | some w => decide (kindOf w = a.kind)
    | none => true)

/-- An entity is clean when it carries no unknown tags, its XDATA tags all
live in the XDATA code range, and its embedded object carries no unknown
tags. -/
def cleanB (e : DXFEntity) : Bool :=
  e.subUnknown.isEmpty && e.looseUnknown.isEmpty &&
  e.xdata.all isXData &&
  (match e.embedded with
   | none => true
   | some (_, eunk) => eunk.isEmpty)

/-- Every attribute of the schema has an explicitly set value. -/
def allExplicitB (e : DXFEntity) : Bool :=
  (allAttrs e.schema).all (fun a => (lookupE e.ns.entries a.aname).isSome)

/-- An entity is round-trip ready when it is clean, its namespace is well
typed, and so is the namespace of its embedded object, if any. -/
def roundtripReady (e : DXFEntity) : Bool :=
  wtB (allAttrs e.schema) e.ns && cleanB e &&
  (match e.embedded with
   | none => true
   | some (ens, _) => wtB embeddedMTextAttrs ens)

/-- The value an attribute currently denotes: its explicit value if set, else
its schema default. -/
def currentVal (ns : DXFNamespace) (a : DXFAttr) : Option DXFValue :=
  match lookupE ns.entries a.aname with
  | some w => some w
  | none => a.adefault

/-- The value the non-suppressing export emits for an attribute: the current
value when the version bracket contains the target version. -/
def emittedVal (v : DXFVersion) (ns : DXFNamespace) (a : DXFAttr) : Option DXFValue :=
  if vle a.minVersion v && vle v a.maxVersion then currentVal ns a else none

/-- The compiled (single-tag) form of one exported attribute. -/
def compiledOf (v : DXFVersion) (ns : DXFNamespace) (a : DXFAttr) : List DXFTag :=
  match emittedVal v ns a with
  | some w => [⟨a.code, w⟩]
  | none => []

/-- The compiled form of an exported attribute list. -/
def compiledList (v : DXFVersion) (ns : DXFNamespace) (attrs : List DXFAttr) :
    List DXFTag :=
  (attrs.map (compiledOf v ns)).flatten

/-- The namespace entries the factory accumulates from a canonical compiled
export, folded left over the attribute list. -/
def nsFold (v : DXFVersion) (ns : DXFNamespace) (attrs : List DXFAttr)
    (acc : List (String × DXFValue)) : List (String × DXFValue) :=
  attrs.foldl (fun ac a =>
    match emittedVal v ns a with
    | some w => setEntry ac a.aname w
    | none => ac) acc

/-- A subclass marker tag. -/
def tag100 (s : String) : DXFTag := ⟨100, .str s⟩

/-- The embedded-object marker tag. -/
def tag101 : DXFTag := ⟨101, .str "Embedded Object"⟩

/-- A tag that may sit inside a subclass bucket body: not a subclass marker,
not an embedded-object marker, not XDATA. -/
def bodyOK (t : DXFTag) : Prop := t.code ≠ 100 ∧ t.code ≠ 101 ∧ t.code < 1000

/-- A tag the coordinate compiler passes through unchanged: its value is not
a float in head position of the vector code range. -/
def passTag (t : DXFTag) : Prop :=
  ∀ q, t.value = .float q → ¬(10 ≤ t.code ∧ t.code ≤ 19)

/-- An attribute is good for a namespace when its spec is well formed and its
explicit value, if any, has the declared kind. -/
def goodAttr (ns : DXFNamespace) (a : DXFAttr) : Prop :=
  wfAttrB a = true ∧ ∀ w, lookupE ns.entries a.aname = some w → kindOf w = a.kind

/-- The base-subclass tags of the spec scenario: a minimal ATTDEF record with
handle "0", layer "0", insert split over codes 10/20/30, height 1.0, text,
style and tag (spec section 8, scenario; ENTITY_R12 test data). -/
def scenarioTagsR12 : List DXFTag :=
  [ ⟨5, .str "0"⟩, ⟨8, .str "0"⟩, ⟨10, .float 0⟩, ⟨20, .float 0⟩, ⟨30, .float 0⟩,
    ⟨40, .float 1⟩, ⟨1, .str "DEFAULTTEXT"⟩, ⟨7, .str "STANDARD"⟩, ⟨2, .str "TAG"⟩ ]

/-- A fully explicit ATTDEF namespace used as the concrete round-trip
witness input. -/
def sampleNs : DXFNamespace :=
  ⟨[ ("handle", .str "ABBA"), ("owner", .str "0"),
     ("layer", .str "0"), ("linetype", .str "BYLAYER"), ("color", .int 7),
     ("shadow_mode", .int 1),
     ("insert", .vec 1 2 3), ("height", .float 2), ("text", .str "T"),
     ("style", .str "STANDARD"), ("halign", .int 0),
     ("prompt", .str "P"), ("tag", .str "TG"), ("flags", .int 0),
     ("valign", .int 0), ("align_point", .vec 4 5 6) ]⟩

/-- A fully explicit, clean ATTDEF entity. -/
def sampleEnt : DXFEntity := ⟨attdefSchema, sampleNs, [], [], none, []⟩

/-- A fully explicit embedded MTEXT namespace, content carrying the
paragraph separator of the EMBEDDED_MTEXT test data. -/
def embNs : DXFNamespace :=
  ⟨[ ("insert", .vec 45 45 0), ("char_height", .float 3), ("width", .float 0),
     ("defined_height", .float 0), ("attachment_point", .int 5), ("flow_direction", .int 5),
     ("text", .str "TEST VENUE\\PTEST FLOOR PLAN"), ("style", .str "Arial_3 NARROW"),
     ("line_spacing_style", .int 1), ("line_spacing_factor", .float 1) ]⟩

/-- An ATTDEF entity carrying an embedded MTEXT object and trailing XDATA,
shaped after the EMBEDDED_MTEXT test data. -/
def sampleEmbEnt : DXFEntity :=
  ⟨attdefSchema, sampleNs, [], [], some (embNs, []),
    [⟨1001, .str "AcadAnnotative"⟩, ⟨1000, .str "AnnotativeData"⟩, ⟨1070, .int 1⟩]⟩

/-- The record of the double-embedded-marker scenario: two code-100 subclass
markers, a code-101 embedded marker, then a second, illegal code-101. -/
def doubleEmbTags : List DXFTag :=
  [ ⟨5, .str "A"⟩, ⟨100, .str "S1"⟩, ⟨8, .str "0"⟩, ⟨100, .str "S2"⟩, ⟨2, .str "T"⟩,
    ⟨101, .str "Embedded Object"⟩, ⟨1, .str "X"⟩,
    ⟨101, .str "Embedded Object"⟩, ⟨7, .str "Y"⟩ ]

/-- The embedded part of a canonical export stream: nothing, or the code-101
marker followed by the embedded tags. -/
def embStream : Option (List DXFTag) → List DXFTag
  | none => []
  | some l => tag101 :: l

/-- The tag stream of a list of named subclass buckets: each bucket is its
code-100 marker followed by its body. -/
def namedStream (ps : List (String × List DXFTag)) : List DXFTag :=
  (ps.map (fun p => tag100 p.1 :: p.2)).flatten

/-- Named buckets as the grouping stage produces them. -/
def namedBuckets (ps : List (String × List DXFTag)) :
    List (Option String × List DXFTag) :=
  ps.map (fun p => (some p.1, p.2))

/-- The exported tag stream of the named effective subclasses. -/
def namedAttrStream (v : DXFVersion) (opt : Bool) (ns : DXFNamespace)
    (ps : List (String × List DXFAttr)) : List DXFTag :=
  (ps.map (fun p => tag100 p.1 :: exportAttrs v opt ns p.2)).flatten

/-- The compiled buckets corresponding to the named effective subclasses. -/
def namedCompiled (v : DXFVersion) (ns : DXFNamespace)
    (ps : List (String × List DXFAttr)) : List (String × List DXFTag) :=
  ps.map (fun p => (p.1, compiledList v ns p.2))

/-- An ATTDEF entity with only handle and layer explicitly set; every other
attribute keeps its schema default. -/
def sparseEnt : DXFEntity :=
  ⟨attdefSchema, ⟨[("handle", .str "A"), ("layer", .str "0")]⟩, [], [], none, []⟩

/-- Equality of fallible results is decidable. -/
instance {ε α : Type} [DecidableEq ε] [DecidableEq α] : DecidableEq (Except ε α)
  | .ok a, .ok b =>
    if h : a = b then .isTrue (by rw [h]) else .isFalse (fun hh => h (Except.ok.inj hh))
  | .ok _, .error _ => .isFalse (fun hh => Except.noConfusion hh)
  | .error _, .ok _ => .isFalse (fun hh => Except.noConfusion hh)
  | .error e, .error f =>
    if h : e = f then .isTrue (by rw [h]) else .isFalse (fun hh => h (Except.error.inj hh))

/-- Bucket-body tags form a decidable predicate. -/
instance (t : DXFTag) : Decidable (bodyOK t) :=
  inferInstanceAs (Decidable (t.code ≠ 100 ∧ t.code ≠ 101 ∧ t.code < 1000))

theorem lookupE_setEntry_self (l : List (String × DXFValue)) (n : String) (v : DXFValue) :
    lookupE (setEntry l n v) n = some v := by
  induction l with
  | nil => simp [setEntry, lookupE]
  | cons hd tl ih =>
    obtain ⟨m, w⟩ := hd
    by_cases h : m = n
    · simp [setEntry, h, lookupE]
    · simp [setEntry, h, lookupE, ih]

theorem lookupE_setEntry_ne (l : List (String × DXFValue)) (n m : String) (v : DXFValue)
    (h : m ≠ n) : lookupE (setEntry l n v) m = lookupE l m := by
  have hnm : n ≠ m := Ne.symm h
  induction l with
  | nil => simp [setEntry, lookupE, hnm]
  | cons hd tl ih =>
    obtain ⟨k, w⟩ := hd
    by_cases hk : k = n
    · subst hk
      simp [setEntry, lookupE, hnm]
    · simp [setEntry, hk, lookupE, ih]

theorem compileVec_nil : compileVec [] = [] := by
  simp [compileVec]

theorem compileVec_cons_pass (t : DXFTag) (rest : List DXFTag) (h : passTag t) :
    compileVec (t :: rest) = t :: compileVec rest := by
  obtain ⟨c, v⟩ := t
  cases v with
  | float q =>
    have hc : ¬(10 ≤ c ∧ c ≤ 19) := h q rfl
    have hcond : ∀ c2 : Nat, ¬(10 ≤ c ∧ c ≤ 19 ∧ c2 = c + 10) :=
      fun c2 hh => hc ⟨hh.1, hh.2.1⟩
    match rest with
    | [] => simp [compileVec]
    | [⟨c2, .float y⟩] => simp [compileVec, hcond c2]
    | [⟨c2, .str s⟩] => simp [compileVec]
    | [⟨c2, .int i⟩] => simp [compileVec]
    | [⟨c2, .vec x y z⟩] => simp [compileVec]
    | ⟨c2, .float y⟩ :: ⟨c3, .float z⟩ :: r => simp [compileVec, hcond c2]
    | ⟨c2, .float y⟩ :: ⟨c3, .str s⟩ :: r => simp [compileVec]
    | ⟨c2, .float y⟩ :: ⟨c3, .int i⟩ :: r => simp [compileVec]
    | ⟨c2, .float y⟩ :: ⟨c3, .vec xx yy zz⟩ :: r => simp [compileVec]
    | ⟨c2, .str s⟩ :: t3 :: r => simp [compileVec]
    | ⟨c2, .int i⟩ :: t3 :: r => simp [compileVec]
    | ⟨c2, .vec xx yy zz⟩ :: t3 :: r => simp [compileVec]
  | str s =>
    match rest with
    | [] => simp [compileVec]
    | [⟨c2, .float y⟩] => simp [compileVec]
    | [⟨c2, .str s2⟩] => simp [compileVec]
    | [⟨c2, .int i⟩] => simp [compileVec]
    | [⟨c2, .vec x y z⟩] => simp [compileVec]
    | ⟨c2, .float y⟩ :: ⟨c3, .float z⟩ :: r => simp [compileVec]
    | ⟨c2, .float y⟩ :: ⟨c3, .str s2⟩ :: r => simp [compileVec]
    | ⟨c2, .float y⟩ :: ⟨c3, .int i⟩ :: r => simp [compileVec]
    | ⟨c2, .float y⟩ :: ⟨c3, .vec xx yy zz⟩ :: r => simp [compileVec]
    | ⟨c2, .str s2⟩ :: t3 :: r => simp [compileVec]
    | ⟨c2, .int i⟩ :: t3 :: r => simp [compileVec]
    | ⟨c2, .vec xx yy zz⟩ :: t3 :: r => simp [compileVec]
  | int i =>
    match rest with
    | [] => simp [compileVec]
    | [⟨c2, .float y⟩] => simp [compileVec]
    | [⟨c2, .str s2⟩] => simp [compileVec]
    | [⟨c2, .int i2⟩] => simp [compileVec]
    | [⟨c2, .vec x y z⟩] => simp [compileVec]
    | ⟨c2, .float y⟩ :: ⟨c3, .float z⟩ :: r => simp [compileVec]
    | ⟨c2, .float y⟩ :: ⟨c3, .str s2⟩ :: r => simp [compileVec]
    | ⟨c2, .float y⟩ :: ⟨c3, .int i2⟩ :: r => simp [compileVec]
    | ⟨c2, .float y⟩ :: ⟨c3, .vec xx yy zz⟩ :: r => simp [compileVec]
    | ⟨c2, .str s2⟩ :: t3 :: r => simp [compileVec]
    | ⟨c2, .int i2⟩ :: t3 :: r => simp [compileVec]
    | ⟨c2, .vec xx yy zz⟩ :: t3 :: r => simp [compileVec]
  | vec x y z =>
    match rest with
    | [] => simp [compileVec]
    | [⟨c2, .float y2⟩] => simp [compileVec]
    | [⟨c2, .str s2⟩] => simp [compileVec]
    | [⟨c2, .int i2⟩] => simp [compileVec]
    | [⟨c2, .vec x2 y2 z2⟩] => simp [compileVec]
    | ⟨c2, .float y2⟩ :: ⟨c3, .float z2⟩ :: r => simp [compileVec]
    | ⟨c2, .float y2⟩ :: ⟨c3, .str s2⟩ :: r => simp [compileVec]
    | ⟨c2, .float y2⟩ :: ⟨c3, .int i2⟩ :: r => simp [compileVec]
    | ⟨c2, .float y2⟩ :: ⟨c3, .vec xx yy zz⟩ :: r => simp [compileVec]
    | ⟨c2, .str s2⟩ :: t3 :: r => simp [compileVec]
    | ⟨c2, .int i2⟩ :: t3 :: r => simp [compileVec]
    | ⟨c2, .vec xx yy zz⟩ :: t3 :: r => simp [compileVec]

theorem compileVec_vec3 (c : Nat) (x y z : Rat) (rest : List DXFTag)
    (h1 : 10 ≤ c) (h2 : c ≤ 19) :
    compileVec (⟨c, .float x⟩ :: ⟨c + 10, .float y⟩ :: ⟨c + 20, .float z⟩ :: rest)
      = ⟨c, .vec x y z⟩ :: compileVec rest := by
  simp [compileVec, h1, h2]

theorem tw_all {α : Type} (p : α → Bool) (l : List α) (h : ∀ t ∈ l, p t = true) :
    l.takeWhile p = l := by
  induction l with
  | nil => rfl
  | cons hd tl ih =>
    simp only [List.takeWhile_cons, h hd (List.mem_cons_self hd tl)]
    exact congrArg (hd :: ·) (ih (fun t ht => h t (List.mem_cons_of_mem hd ht)))

theorem dw_all {α : Type} (p : α → Bool) (l : List α) (h : ∀ t ∈ l, p t = true) :
    l.dropWhile p = [] := by
  induction l with
  | nil => rfl
  | cons hd tl ih =>
    simp only [List.dropWhile_cons, h hd (List.mem_cons_self hd tl)]
    exact ih (fun t ht => h t (List.mem_cons_of_mem hd ht))

theorem wfAttrB_spec (a : DXFAttr) (h : wfAttrB a = true) :
    a.code ≠ 100 ∧ a.code ≠ 101 ∧ a.code < 1000 ∧
    (a.kind = .kVec → 10 ≤ a.code ∧ a.code ≤ 19) ∧
    (a.kind ≠ .kVec → ¬(10 ≤ a.code ∧ a.code ≤ 39)) ∧
    (∀ d, a.adefault = some d → kindOf d = a.kind) := by
  unfold wfAttrB at h
  simp only [Bool.and_eq_true, decide_eq_true_eq] at h
  obtain ⟨⟨⟨⟨h1, h2⟩, h3⟩, h4⟩, h5⟩ := h
  refine ⟨h1, h2, h3, ?_, ?_, ?_⟩
  · intro hk
    simp only [hk, if_true] at h4
    exact of_decide_eq_true h4
  · intro hk
    simp only [if_neg hk, Bool.not_eq_true'] at h4
    exact of_decide_eq_false h4
  · intro d hd
    rw [hd] at h5
    exact of_decide_eq_true h5

theorem emittedVal_kind (v : DXFVersion) (ns : DXFNamespace) (a : DXFAttr)
    (hg : goodAttr ns a) (w : DXFValue) (hw : emittedVal v ns a = some w) :
    kindOf w = a.kind := by
  unfold emittedVal currentVal at hw
  by_cases hb : (vle a.minVersion v && vle v a.maxVersion) = true
  · rw [if_pos hb] at hw
    cases hl : lookupE ns.entries a.aname with
    | some u =>
      rw [hl] at hw
      cases hw
      exact hg.2 w hl
    | none =>
      rw [hl] at hw
      exact (wfAttrB_spec a hg.1).2.2.2.2.2 w hw
  · rw [if_neg hb] at hw
    cases hw

theorem exportAttr_eq_emit (v : DXFVersion) (ns : DXFNamespace) (a : DXFAttr) :
    exportAttr v false ns a =
      (match emittedVal v ns a with
       | some w => emitTags a.code w
       | none => []) := by
  unfold exportAttr emittedVal currentVal
  by_cases hb : (vle a.minVersion v && vle v a.maxVersion) = true
  · rw [if_pos hb, if_pos hb]
    cases lookupE ns.entries a.aname with
    | some u => rfl
    | none =>
      simp only [Bool.false_and, Bool.false_eq_true, if_false]
  · rw [if_neg hb, if_neg hb]

theorem compile_emit (a : DXFAttr) (w : DXFValue) (suffix : List DXFTag)
    (hwf : wfAttrB a = true) (hk : kindOf w = a.kind) :
    compileVec (emitTags a.code w ++ suffix) = ⟨a.code, w⟩ :: compileVec suffix := by
  have hs := wfAttrB_spec a hwf
  cases w with
  | vec x y z =>
    have hr := hs.2.2.2.1 (by rw [← hk]; rfl)
    simpa [emitTags] using compileVec_vec3 a.code x y z suffix hr.1 hr.2
  | float q =>
    have hnv : a.kind ≠ .kVec := by rw [← hk]; simp [kindOf]
    have hr := hs.2.2.2.2.1 hnv
    refine compileVec_cons_pass _ _ ?_
    intro q' _
    intro hc
    exact hr ⟨hc.1, le_trans hc.2 (by omega)⟩
  | str s =>
    refine compileVec_cons_pass _ _ ?_
    intro q' hq'
    cases hq'
  | int i =>
    refine compileVec_cons_pass _ _ ?_
    intro q' hq'
    cases hq'

theorem compile_exportAttrs (v : DXFVersion) (ns : DXFNamespace) (attrs : List DXFAttr)
    (suffix : List DXFTag) (hg : ∀ a ∈ attrs, goodAttr ns a) :
    compileVec (exportAttrs v false ns attrs ++ suffix)
      = compiledList v ns attrs ++ compileVec suffix := by
  induction attrs with
  | nil => simp [exportAttrs, compiledList]
  | cons a rest ih =>
    have hga : goodAttr ns a := hg a (List.mem_cons_self a rest)
    have hrest : ∀ b ∈ rest, goodAttr ns b := fun b hb => hg b (List.mem_cons_of_mem a hb)
    simp only [exportAttrs, compiledList, List.map_cons, List.flatten_cons,
      List.append_assoc]
    rw [exportAttr_eq_emit]
    cases hw : emittedVal v ns a with
    | none =>
      simp only [List.nil_append, compiledOf, hw]
      simpa [exportAttrs, compiledList] using ih hrest
    | some w =>
      rw [compile_emit a w _ hga.1 (emittedVal_kind v ns a hga w hw)]
      simp only [compiledOf, hw, List.singleton_append, List.cons_append]
      exact congrArg (DXFTag.mk a.code w :: ·) (by simpa [exportAttrs, compiledList] using ih hrest)

theorem passTag_tag100 (sn : String) : passTag (tag100 sn) := by
  intro q hq
  cases hq

theorem passTag_tag101 : passTag tag101 := by
  intro q hq
  cases hq

theorem compile_namedAttrStream (v : DXFVersion) (ns : DXFNamespace)
    (ps : List (String × List DXFAttr)) (suffix : List DXFTag)
    (hg : ∀ p ∈ ps, ∀ a ∈ p.2, goodAttr ns a) :
    compileVec (namedAttrStream v false ns ps ++ suffix)
      = namedStream (namedCompiled v ns ps) ++ compileVec suffix := by
  induction ps with
  | nil => simp [namedAttrStream, namedStream, namedCompiled]
  | cons p ps ih =>
    obtain ⟨sn, attrs⟩ := p
    have hga : ∀ a ∈ attrs, goodAttr ns a := fun a ha => hg (sn, attrs) (List.mem_cons_self _ _) a ha
    have hrest : ∀ q ∈ ps, ∀ a ∈ q.2, goodAttr ns a := fun q hq => hg q (List.mem_cons_of_mem _ hq)
    simp only [namedAttrStream, namedStream, namedCompiled, List.map_cons,
      List.flatten_cons, List.cons_append, List.append_assoc]
    rw [compileVec_cons_pass _ _ (passTag_tag100 sn)]
    rw [compile_exportAttrs v ns attrs _ hga]
    have := ih hrest
    simp only [namedAttrStream, namedStream, namedCompiled, List.append_assoc] at this
    rw [this]

theorem compile_all_xdata (xd : List DXFTag) (hxd : ∀ t ∈ xd, isXData t = true) :
    compileVec xd = xd := by
  induction xd with
  | nil => simp [compileVec]
  | cons t rest ih =>
    have ht : isXData t = true := hxd t (List.mem_cons_self t rest)
    have hpass : passTag t := by
      intro q _
      rintro ⟨_, h19⟩
      have : 1000 ≤ t.code := of_decide_eq_true ht
      omega
    rw [compileVec_cons_pass t rest hpass]
    exact congrArg (t :: ·) (ih (fun u hu => hxd u (List.mem_cons_of_mem t hu)))

theorem groupSub_nil (cur : List DXFTag) (nm : Option String)
    (done : List (Option String × List DXFTag)) :
    groupSub [] cur nm done = done ++ [(nm, cur.reverse)] := rfl

theorem groupSub_cons_body (t : DXFTag) (rest cur : List DXFTag) (nm : Option String)
    (done : List (Option String × List DXFTag)) (h : t.code ≠ 100) :
    groupSub (t :: rest) cur nm done = groupSub rest (t :: cur) nm done := by
  simp [groupSub, h]

theorem groupSub_cons_marker (sn : String) (rest cur : List DXFTag) (nm : Option String)
    (done : List (Option String × List DXFTag)) :
    groupSub (tag100 sn :: rest) cur nm done
      = groupSub rest [] (some sn) (done ++ [(nm, cur.reverse)]) := by
  simp [groupSub, tag100, strValOf]

theorem groupSub_block (B : List DXFTag) (hB : ∀ t ∈ B, t.code ≠ 100) :
    ∀ (rest cur : List DXFTag) (nm : Option String)
      (done : List (Option String × List DXFTag)),
      groupSub (B ++ rest) cur nm done = groupSub rest (B.reverse ++ cur) nm done := by
  induction B with
  | nil => intro rest cur nm done; simp
  | cons b B ih =>
    intro rest cur nm done
    rw [List.cons_append, groupSub_cons_body b _ _ _ _ (hB b (List.mem_cons_self b B))]
    rw [ih (fun t ht => hB t (List.mem_cons_of_mem b ht)) rest (b :: cur) nm done]
    simp

theorem groupSub_flat (ps : List (String × List DXFTag))
    (hps : ∀ p ∈ ps, ∀ t ∈ p.2, t.code ≠ 100) :
    ∀ (cur : List DXFTag) (nm : Option String)
      (done : List (Option String × List DXFTag)),
      groupSub (namedStream ps) cur nm done
        = done ++ [(nm, cur.reverse)] ++ namedBuckets ps := by
  induction ps with
  | nil => intro cur nm done; simp [namedStream, namedBuckets, groupSub]
  | cons p ps ih =>
    intro cur nm done
    obtain ⟨sn, B⟩ := p
    have hB : ∀ t ∈ B, t.code ≠ 100 := fun t ht => hps (sn, B) (List.mem_cons_self _ _) t ht
    have hrest : ∀ q ∈ ps, ∀ t ∈ q.2, t.code ≠ 100 :=
      fun q hq => hps q (List.mem_cons_of_mem _ hq)
    simp only [namedStream, namedBuckets, List.map_cons, List.flatten_cons, List.cons_append]
    rw [groupSub_cons_marker]
    rw [groupSub_block B hB _ [] (some sn) _]
    have := ih hrest (B.reverse ++ []) (some sn) (done ++ [(nm, cur.reverse)])
    simp only [namedStream, namedBuckets] at this
    rw [this]
    simp

theorem splitSubclasses_canonical (B0 : List DXFTag) (ps : List (String × List DXFTag))
    (h0 : ∀ t ∈ B0, t.code ≠ 100) (hps : ∀ p ∈ ps, ∀ t ∈ p.2, t.code ≠ 100) :
    splitSubclasses (B0 ++ namedStream ps) = (none, B0) :: namedBuckets ps := by
  unfold splitSubclasses
  rw [groupSub_block B0 h0]
  rw [groupSub_flat ps hps (B0.reverse ++ []) none []]
  simp

theorem tw_neg_all {α : Type} (p : α → Bool) (l : List α) (h : ∀ t ∈ l, p t = false) :
    l.takeWhile p = [] := by
  cases l with
  | nil => rfl
  | cons hd tl =>
    exact List.takeWhile_cons_of_neg (by simp [h hd (List.mem_cons_self hd tl)])

theorem dw_neg_all {α : Type} (p : α → Bool) (l : List α) (h : ∀ t ∈ l, p t = false) :
    l.dropWhile p = l := by
  cases l with
  | nil => rfl
  | cons hd tl =>
    exact List.dropWhile_cons_of_neg (by simp [h hd (List.mem_cons_self hd tl)])

theorem groupTags_canonical (strict : Bool) (B0 : List DXFTag)
    (ps : List (String × List DXFTag)) (embOpt : Option (List DXFTag)) (xd : List DXFTag)
    (h0 : ∀ t ∈ B0, bodyOK t)
    (hps : ∀ p ∈ ps, ∀ t ∈ p.2, bodyOK t)
    (hemb : ∀ l, embOpt = some l → ∀ t ∈ l, bodyOK t)
    (hxd : ∀ t ∈ xd, isXData t = true) :
    groupTags strict (B0 ++ namedStream ps ++ embStream embOpt ++ xd)
      = .ok ⟨(none, B0) :: namedBuckets ps, embOpt, [], xd⟩ := by
  have hQ : ∀ t ∈ B0 ++ namedStream ps, t.code ≠ 101 ∧ t.code < 1000 ∧ t.code ≠ 100 ∨ t.code = 100 := by
    intro t ht
    rcases List.mem_append.mp ht with h | h
    · exact Or.inl ⟨(h0 t h).2.1, (h0 t h).2.2, (h0 t h).1⟩
    · unfold namedStream at h
      rw [List.mem_flatten] at h
      obtain ⟨l, hl, htl⟩ := h
      rw [List.mem_map] at hl
      obtain ⟨p, hp, rfl⟩ := hl
      rcases List.mem_cons.mp htl with htl | htl
      · rw [htl]
        exact Or.inr rfl
      · have := hps p hp t htl
        exact Or.inl ⟨this.2.1, this.2.2, this.1⟩
  have hQne101 : ∀ t ∈ B0 ++ namedStream ps, t.code ≠ 101 := by
    intro t ht
    rcases hQ t ht with h | h
    · exact h.1
    · omega
  have hQlt : ∀ t ∈ B0 ++ namedStream ps, t.code < 1000 := by
    intro t ht
    rcases hQ t ht with h | h
    · exact h.2.1
    · omega
  have hPlt : ∀ t ∈ (B0 ++ namedStream ps) ++ embStream embOpt, (!isXData t) = true := by
    intro t ht
    rcases List.mem_append.mp ht with h | h
    · simp only [Bool.not_eq_true', isXData, decide_eq_false_iff_not, not_le]
      exact hQlt t h
    · simp only [Bool.not_eq_true', isXData, decide_eq_false_iff_not, not_le]
      cases embOpt with
      | none => cases h
      | some l =>
        simp only [embStream] at h
        rcases List.mem_cons.mp h with h | h
        · rw [h]; simp [tag101]
        · exact (hemb l rfl t h).2.2
  have hxdF : ∀ t ∈ xd, (!isXData t) = false := by
    intro t ht
    simp [hxd t ht]
  unfold groupTags
  rw [List.takeWhile_append_of_pos hPlt, List.dropWhile_append_of_pos hPlt]
  rw [tw_neg_all _ xd hxdF, dw_neg_all _ xd hxdF, List.append_nil]
  cases embOpt with
  | none =>
    simp only [embStream, List.append_nil]
    rw [tw_all _ _ (fun t ht => decide_eq_true (hQne101 t ht))]
    rw [dw_all _ _ (fun t ht => decide_eq_true (hQne101 t ht))]
    rw [splitSubclasses_canonical B0 ps
      (fun t ht => (h0 t ht).1)
      (fun p hp t ht => (hps p hp t ht).1)]
  | some l =>
    simp only [embStream]
    rw [List.takeWhile_append_of_pos (fun t ht => decide_eq_true (hQne101 t ht))]
    rw [List.dropWhile_append_of_pos (fun t ht => decide_eq_true (hQne101 t ht))]
    rw [List.takeWhile_cons_of_neg (by simp [tag101]), List.dropWhile_cons_of_neg (by simp [tag101]),
      List.append_nil]
    simp only
    rw [tw_all _ l (fun t ht => decide_eq_true ((hemb l rfl t ht).2.1))]
    rw [dw_all _ l (fun t ht => decide_eq_true ((hemb l rfl t ht).2.1))]
    rw [splitSubclasses_canonical B0 ps
      (fun t ht => (h0 t ht).1)
      (fun p hp t ht => (hps p hp t ht).1)]

theorem find?_eq_some_of_uniq {α : Type} (p : α → Bool) (l : List α) (a : α)
    (ha : a ∈ l) (hpa : p a = true) (huniq : ∀ b ∈ l, p b = true → b = a) :
    l.find? p = some a := by
  induction l with
  | nil => cases ha
  | cons hd tl ih =>
    by_cases hp : p hd = true
    · rw [List.find?_cons_of_pos tl hp]
      exact congrArg some (huniq hd (List.mem_cons_self hd tl) hp)
    · rw [List.find?_cons_of_neg tl hp]
      have hatl : a ∈ tl := by
        rcases List.mem_cons.mp ha with h | h
        · exact absurd (h ▸ hpa) hp
        · exact h
      exact ih hatl (fun b hb hpb => huniq b (List.mem_cons_of_mem hd hb) hpb)

theorem emittedVal_bracket (v : DXFVersion) (ns : DXFNamespace) (a : DXFAttr)
    (w : DXFValue) (hw : emittedVal v ns a = some w) :
    vle a.minVersion v = true ∧ vle v a.maxVersion = true := by
  unfold emittedVal at hw
  by_cases hb : (vle a.minVersion v && vle v a.maxVersion) = true
  · simp only [Bool.and_eq_true] at hb
    exact hb
  · rw [if_neg hb] at hw
    cases hw

theorem matchTags_nil (v : DXFVersion) (attrs : List DXFAttr)
    (acc : List (String × DXFValue)) :
    matchTags v attrs [] acc = (acc, []) := rfl

theorem matchTags_cons_found (v : DXFVersion) (attrs : List DXFAttr) (t : DXFTag)
    (rest : List DXFTag) (acc : List (String × DXFValue)) (a : DXFAttr)
    (hfind : attrs.find? (fun b =>
        decide (b.code = t.code) && vle b.minVersion v &&
        decide (kindOf t.value = b.kind)) = some a) :
    matchTags v attrs (t :: rest) acc
      = matchTags v attrs rest (setEntry acc a.aname t.value) := by
  simp [matchTags, hfind]

theorem matchTags_canonical (v : DXFVersion) (ns : DXFNamespace) (attrs : List DXFAttr)
    (huniq : ∀ a ∈ attrs, ∀ b ∈ attrs, a.code = b.code → a = b)
    (hg : ∀ a ∈ attrs, goodAttr ns a) :
    ∀ (l : List DXFAttr), (∀ a ∈ l, a ∈ attrs) →
      ∀ acc, matchTags v attrs (compiledList v ns l) acc = (nsFold v ns l acc, []) := by
  intro l
  induction l with
  | nil =>
    intro _ acc
    simp [compiledList, nsFold, matchTags]
  | cons a l ih =>
    intro hsub acc
    have hmem : a ∈ attrs := hsub a (List.mem_cons_self a l)
    have hsubl : ∀ b ∈ l, b ∈ attrs := fun b hb => hsub b (List.mem_cons_of_mem a hb)
    simp only [compiledList, List.map_cons, List.flatten_cons]
    cases hw : emittedVal v ns a with
    | none =>
      simp only [compiledOf, hw, List.nil_append]
      have := ih hsubl acc
      simp only [compiledList] at this
      rw [this]
      simp [nsFold, List.foldl_cons, hw]
    | some w =>
      simp only [compiledOf, hw, List.singleton_append]
      have hfind : attrs.find? (fun b =>
          decide (b.code = (DXFTag.mk a.code w).code) && vle b.minVersion v &&
          decide (kindOf (DXFTag.mk a.code w).value = b.kind)) = some a := by
        apply find?_eq_some_of_uniq _ _ a hmem
        · have hbr := emittedVal_bracket v ns a w hw
          have hk := emittedVal_kind v ns a (hg a hmem) w hw
          simp [hbr.1, hk]
        · intro b hb hpb
          simp only [Bool.and_eq_true, decide_eq_true_eq] at hpb
          exact huniq b hb a hmem hpb.1.1
      rw [matchTags_cons_found v attrs _ _ acc a hfind]
      have := ih hsubl (setEntry acc a.aname w)
      simp only [compiledList] at this
      rw [this]
      simp [nsFold, List.foldl_cons, hw]

theorem matchBucketList_named (v : DXFVersion) (ns : DXFNamespace)
    (ps : List (String × List DXFAttr))
    (hps : ∀ p ∈ ps, (∀ a ∈ p.2, ∀ b ∈ p.2, a.code = b.code → a = b) ∧
      (∀ a ∈ p.2, goodAttr ns a)) :
    ∀ acc,
      matchBucketList v (ps.map (fun p => (some p.1, p.2)))
          (ps.map (fun p => (some p.1, compiledList v ns p.2))) acc
        = (nsFold v ns ((ps.map Prod.snd).flatten) acc, ps.map (fun _ => []), []) := by
  induction ps with
  | nil =>
    intro acc
    simp [matchBucketList, nsFold]
  | cons p ps ih =>
    intro acc
    obtain ⟨sn, attrs⟩ := p
    have hp := hps (sn, attrs) (List.mem_cons_self _ _)
    have hrest : ∀ q ∈ ps, (∀ a ∈ q.2, ∀ b ∈ q.2, a.code = b.code → a = b) ∧
        (∀ a ∈ q.2, goodAttr ns a) := fun q hq => hps q (List.mem_cons_of_mem _ hq)
    simp only [List.map_cons, matchBucketList, if_pos rfl]
    rw [matchTags_canonical v ns attrs hp.1 hp.2 attrs (fun a ha => ha) acc]
    rw [ih hrest]
    simp [nsFold, List.foldl_append]

theorem lookupE_nsFold_notin (v : DXFVersion) (ns : DXFNamespace) (l : List DXFAttr)
    (n : String) (h : ∀ b ∈ l, b.aname ≠ n) :
    ∀ acc, lookupE (nsFold v ns l acc) n = lookupE acc n := by
  induction l with
  | nil => intro acc; rfl
  | cons b l ih =>
    intro acc
    have hb : b.aname ≠ n := h b (List.mem_cons_self b l)
    have hl : ∀ c ∈ l, c.aname ≠ n := fun c hc => h c (List.mem_cons_of_mem b hc)
    simp only [nsFold, List.foldl_cons]
    cases hw : emittedVal v ns b with
    | none =>
      have := ih hl acc
      simp only [nsFold] at this
      simpa [hw] using this
    | some w =>
      have := ih hl (setEntry acc b.aname w)
      simp only [nsFold] at this
      simp only [hw]
      rw [this]
      exact lookupE_setEntry_ne acc b.aname n w (Ne.symm hb)

theorem lookupE_nsFold_mem (v : DXFVersion) (ns : DXFNamespace) (l : List DXFAttr)
    (hinj : ∀ x ∈ l, ∀ y ∈ l, x.aname = y.aname → x = y) (a : DXFAttr) (ha : a ∈ l) :
    ∀ acc, lookupE (nsFold v ns l acc) a.aname =
      (match emittedVal v ns a with
       | some w => some w
       | none => lookupE acc a.aname) := by
  induction l with
  | nil => cases ha
  | cons b l ih =>
    intro acc
    have hinjl : ∀ x ∈ l, ∀ y ∈ l, x.aname = y.aname → x = y :=
      fun x hx y hy => hinj x (List.mem_cons_of_mem b hx) y (List.mem_cons_of_mem b hy)
    by_cases hname : b.aname = a.aname
    · have hba : b = a := hinj b (List.mem_cons_self b l) a ha hname
      subst hba
      simp only [nsFold, List.foldl_cons]
      by_cases hal : b ∈ l
      · cases hw : emittedVal v ns b with
        | none =>
          have := ih hinjl hal acc
          simp only [nsFold] at this
          simpa [hw] using this
        | some w =>
          have := ih hinjl hal (setEntry acc b.aname w)
          simp only [nsFold] at this
          simp only [hw]
          rw [this]
          simp [hw]
      · have hno : ∀ c ∈ l, c.aname ≠ b.aname := by
          intro c hc hceq
          exact hal ((hinj c (List.mem_cons_of_mem b hc) b (List.mem_cons_self b l) hceq) ▸ hc)
        cases hw : emittedVal v ns b with
        | none =>
          have := lookupE_nsFold_notin v ns l b.aname hno acc
          simp only [nsFold] at this
          simpa [hw] using this
        | some w =>
          have := lookupE_nsFold_notin v ns l b.aname hno (setEntry acc b.aname w)
          simp only [nsFold] at this
          simp only [hw]
          rw [this]
          rw [lookupE_setEntry_self]
    · have hal : a ∈ l := by
        rcases List.mem_cons.mp ha with h | h
        · exact absurd (congrArg DXFAttr.aname h).symm hname
        · exact h
      simp only [nsFold, List.foldl_cons]
      cases hw : emittedVal v ns b with
      | none =>
        have := ih hinjl hal acc
        simp only [nsFold] at this
        simpa [hw] using this
      | some w =>
        have := ih hinjl hal (setEntry acc b.aname w)
        simp only [nsFold] at this
        simp only [hw]
        rw [this]
        rw [lookupE_setEntry_ne acc b.aname a.aname w (fun hh => hname hh.symm)]

theorem emittedVal_congr (v : DXFVersion) (ns ns2 : DXFNamespace) (a : DXFAttr)
    (h2 : lookupE ns2.entries a.aname = emittedVal v ns a) :
    emittedVal v ns2 a = emittedVal v ns a := by
  cases hw : emittedVal v ns a with
  | some w =>
    rw [hw] at h2
    have hbr := emittedVal_bracket v ns a w hw
    have hb : (vle a.minVersion v && vle v a.maxVersion) = true := by
      rw [hbr.1, hbr.2]
      rfl
    unfold emittedVal currentVal
    rw [if_pos hb, h2]
  | none =>
    rw [hw] at h2
    unfold emittedVal currentVal
    by_cases hb : (vle a.minVersion v && vle v a.maxVersion) = true
    · rw [if_pos hb, h2]
      unfold emittedVal currentVal at hw
      rw [if_pos hb] at hw
      cases hl : lookupE ns.entries a.aname with
      | some u =>
        rw [hl] at hw
        cases hw
      | none =>
        rw [hl] at hw
        exact hw
    · rw [if_neg hb]

theorem exportAttr_congr (v : DXFVersion) (ns ns2 : DXFNamespace) (a : DXFAttr)
    (h2 : lookupE ns2.entries a.aname = emittedVal v ns a) :
    exportAttr v false ns2 a = exportAttr v false ns a := by
  rw [exportAttr_eq_emit, exportAttr_eq_emit, emittedVal_congr v ns ns2 a h2]

theorem exportAttrs_congr (v : DXFVersion) (ns ns2 : DXFNamespace) (attrs : List DXFAttr)
    (h2 : ∀ a ∈ attrs, lookupE ns2.entries a.aname = emittedVal v ns a) :
    exportAttrs v false ns2 attrs = exportAttrs v false ns attrs := by
  unfold exportAttrs
  exact congrArg List.flatten
    (List.map_congr_left (fun a ha => exportAttr_congr v ns ns2 a (h2 a ha)))

theorem namedAttrStream_congr (v : DXFVersion) (ns ns2 : DXFNamespace)
    (ps : List (String × List DXFAttr))
    (h2 : ∀ p ∈ ps, ∀ a ∈ p.2, lookupE ns2.entries a.aname = emittedVal v ns a) :
    namedAttrStream v false ns2 ps = namedAttrStream v false ns ps := by
  unfold namedAttrStream
  exact congrArg List.flatten (List.map_congr_left (fun p hp =>
    congrArg (tag100 p.1 :: ·) (exportAttrs_congr v ns ns2 p.2 (h2 p hp))))

theorem zipPad_all_nil :
    ∀ (l : List (Option String × List DXFAttr)) (us : List (List DXFTag)),
      (∀ u ∈ us, u = []) → zipPad l us = l.map (fun a => (a, [])) := by
  intro l
  induction l with
  | nil =>
    intro us hus
    cases us <;> rfl
  | cons a as ih =>
    intro us hus
    cases us with
    | nil =>
      simp only [zipPad, List.map_cons]
      rw [ih [] (by intro u hu; cases hu)]
    | cons u us2 =>
      have hu : u = [] := hus u (List.mem_cons_self u us2)
      subst hu
      simp only [zipPad, List.map_cons]
      rw [ih us2 (fun u hu => hus u (List.mem_cons_of_mem _ hu))]

theorem export_shape (v : DXFVersion) (opt : Bool) (N : DXFNamespace) (a0 : List DXFAttr)
    (ps : List (String × List DXFAttr)) :
    ((((none, a0) :: ps.map (fun p => (some p.1, p.2))).map
        (fun a => (a, ([] : List DXFTag)))).map (exportBucket v opt N)).flatten
      = exportAttrs v opt N a0 ++ namedAttrStream v opt N ps := by
  simp only [List.map_cons, List.flatten_cons, List.map_map]
  congr 1
  · simp [exportBucket]
  · unfold namedAttrStream
    refine congrArg List.flatten (List.map_congr_left (fun p hp => ?_))
    simp [exportBucket, tag100, Function.comp]

theorem mem_compiledList (v : DXFVersion) (ns : DXFNamespace) (l : List DXFAttr)
    (t : DXFTag) (ht : t ∈ compiledList v ns l) : ∃ a ∈ l, t.code = a.code := by
  unfold compiledList at ht
  rw [List.mem_flatten] at ht
  obtain ⟨x, hx, htx⟩ := ht
  rw [List.mem_map] at hx
  obtain ⟨a, ha, rfl⟩ := hx
  unfold compiledOf at htx
  cases hw : emittedVal v ns a with
  | some w =>
    rw [hw] at htx
    rcases List.mem_cons.mp htx with h | h
    · exact ⟨a, ha, by rw [h]⟩
    · cases h
  | none =>
    rw [hw] at htx
    cases htx

theorem bodyOK_of_compiled (v : DXFVersion) (ns : DXFNamespace) (l : List DXFAttr)
    (hg : ∀ a ∈ l, wfAttrB a = true) (t : DXFTag) (ht : t ∈ compiledList v ns l) :
    bodyOK t := by
  obtain ⟨a, ha, hc⟩ := mem_compiledList v ns l t ht
  have hs := wfAttrB_spec a (hg a ha)
  exact ⟨by rw [hc]; exact hs.1, by rw [hc]; exact hs.2.1, by rw [hc]; exact hs.2.2.1⟩

theorem namedBuckets_namedCompiled (v : DXFVersion) (ns : DXFNamespace)
    (ps : List (String × List DXFAttr)) :
    namedBuckets (namedCompiled v ns ps)
      = ps.map (fun p => (some p.1, compiledList v ns p.2)) := by
  simp only [namedBuckets, namedCompiled, List.map_map]
  rfl

theorem emb_wf : ∀ a ∈ embeddedMTextAttrs, wfAttrB a = true := by decide

theorem emb_inj_names : ∀ x ∈ embeddedMTextAttrs, ∀ y ∈ embeddedMTextAttrs,
    x.aname = y.aname → x = y := by decide

theorem emb_inj_codes : ∀ x ∈ embeddedMTextAttrs, ∀ y ∈ embeddedMTextAttrs,
    x.code = y.code → x = y := by decide

theorem effs_shape (es : EntitySchema) (v : DXFVersion) :
    ∃ (a0 : List DXFAttr) (ps : List (String × List DXFAttr)),
      effectiveSubclasses es v = (none, a0) :: ps.map (fun p => (some p.1, p.2)) ∧
      a0 ++ (ps.map Prod.snd).flatten = allAttrs es := by
  by_cases h : vle .R2000 v = true
  · refine ⟨es.baseAttrs, es.subclasses.map (fun s => (s.sname, s.attrs)), ?_, ?_⟩
    · unfold effectiveSubclasses
      rw [if_pos h]
      simp [List.map_map, Function.comp]
    · unfold allAttrs
      simp only [List.map_map]
      rfl
  · refine ⟨allAttrs es, [], ?_, by simp⟩
    unfold effectiveSubclasses
    rw [if_neg h]
    simp

theorem matchBucketList_cons (v : DXFVersion) (nm : Option String)
    (attrs : List DXFAttr) (effs : List (Option String × List DXFAttr))
    (ts : List DXFTag) (bs : List (Option String × List DXFTag))
    (acc : List (String × DXFValue)) :
    matchBucketList v ((nm, attrs) :: effs) ((nm, ts) :: bs) acc
      = ((matchBucketList v effs bs (matchTags v attrs ts acc).1).1,
         (matchTags v attrs ts acc).2 ::
           (matchBucketList v effs bs (matchTags v attrs ts acc).1).2.1,
         (matchBucketList v effs bs (matchTags v attrs ts acc).1).2.2) := by
  simp [matchBucketList]

theorem roundtrip_core (es : EntitySchema) (v : DXFVersion) (e : DXFEntity)
    (hwf : wfSchemaB es = true) (hes : e.schema = es) (hready : roundtripReady e = true) :
    ∃ e2, loadEntity es v false (exportEntity e v false) = .ok e2 ∧
      exportEntity e2 v false = exportEntity e v false := by
  subst hes
  unfold roundtripReady at hready
  simp only [Bool.and_eq_true] at hready
  obtain ⟨⟨hwt, hclean⟩, hembwt⟩ := hready
  unfold cleanB at hclean
  simp only [Bool.and_eq_true] at hclean
  obtain ⟨⟨⟨hsubU, hlooseU⟩, hxdall⟩, hembclean⟩ := hclean
  have hsubU2 : e.subUnknown = [] := List.isEmpty_iff.mp hsubU
  have hlooseU2 : e.looseUnknown = [] := List.isEmpty_iff.mp hlooseU
  have hxd : ∀ t ∈ e.xdata, isXData t = true := List.all_eq_true.mp hxdall
  unfold wfSchemaB at hwf
  simp only [Bool.and_eq_true] at hwf
  obtain ⟨⟨hnodupN, hnodupC⟩, hallwf⟩ := hwf
  have hinjN := List.inj_on_of_nodup_map (of_decide_eq_true hnodupN)
  have hinjC := List.inj_on_of_nodup_map (of_decide_eq_true hnodupC)
  have hallwf2 : ∀ a ∈ allAttrs e.schema, wfAttrB a = true := List.all_eq_true.mp hallwf
  have hgood : ∀ a ∈ allAttrs e.schema, goodAttr e.ns a := by
    intro a ha
    refine ⟨hallwf2 a ha, ?_⟩
    intro w hwl
    have := (List.all_eq_true.mp hwt) a ha
    rw [hwl] at this
    exact of_decide_eq_true this
  obtain ⟨a0, ps, heff, hflat⟩ := effs_shape e.schema v
  have hsub0 : ∀ a ∈ a0, a ∈ allAttrs e.schema := by
    intro a ha
    rw [← hflat]
    exact List.mem_append_left _ ha
  have hsubs : ∀ p ∈ ps, ∀ a ∈ p.2, a ∈ allAttrs e.schema := by
    intro p hp a ha
    rw [← hflat]
    refine List.mem_append_right _ ?_
    rw [List.mem_flatten]
    exact ⟨p.2, List.mem_map.mpr ⟨p, hp, rfl⟩, ha⟩
  have hgood0 : ∀ a ∈ a0, goodAttr e.ns a := fun a ha => hgood a (hsub0 a ha)
  have hgoodps : ∀ p ∈ ps, ∀ a ∈ p.2, goodAttr e.ns a :=
    fun p hp a ha => hgood a (hsubs p hp a ha)
  have huniq0 : ∀ a ∈ a0, ∀ b ∈ a0, a.code = b.code → a = b :=
    fun a ha b hb h => hinjC (hsub0 a ha) (hsub0 b hb) h
  have huniqps : ∀ p ∈ ps, (∀ a ∈ p.2, ∀ b ∈ p.2, a.code = b.code → a = b) ∧
      (∀ a ∈ p.2, goodAttr e.ns a) := by
    intro p hp
    exact ⟨fun a ha b hb h => hinjC (hsubs p hp a ha) (hsubs p hp b hb) h, hgoodps p hp⟩
  have hb0 : ∀ t ∈ compiledList v e.ns a0, bodyOK t :=
    bodyOK_of_compiled v e.ns a0 (fun a ha => hallwf2 a (hsub0 a ha))
  have hbps : ∀ p ∈ namedCompiled v e.ns ps, ∀ t ∈ p.2, bodyOK t := by
    intro p hp t ht
    unfold namedCompiled at hp
    rw [List.mem_map] at hp
    obtain ⟨q, hq, rfl⟩ := hp
    exact bodyOK_of_compiled v e.ns q.2 (fun a ha => hallwf2 a (hsubs q hq a ha)) t ht
  have hfoldall : nsFold v e.ns (allAttrs e.schema) []
      = nsFold v e.ns ((ps.map Prod.snd).flatten) (nsFold v e.ns a0 []) := by
    rw [← hflat]
    simp [nsFold, List.foldl_append]
  have hlook : ∀ a ∈ allAttrs e.schema,
      lookupE (nsFold v e.ns (allAttrs e.schema) []) a.aname = emittedVal v e.ns a := by
    intro a ha
    rw [lookupE_nsFold_mem v e.ns (allAttrs e.schema)
      (fun x hx y hy h => hinjN hx hy h) a ha []]
    cases emittedVal v e.ns a <;> rfl
  rcases hembE : e.embedded with _ | ⟨ens, eunk⟩
  · -- no embedded object
    have hTexp : exportEntity e v false
        = exportAttrs v false e.ns a0 ++ namedAttrStream v false e.ns ps ++ e.xdata := by
      unfold exportEntity
      rw [hembE, hsubU2, hlooseU2, heff]
      dsimp only
      rw [zipPad_all_nil _ [] (by intro u hu; cases hu)]
      rw [export_shape]
      simp
    have hcomp : compileVec (exportEntity e v false)
        = compiledList v e.ns a0 ++ (namedStream (namedCompiled v e.ns ps) ++ e.xdata) := by
      rw [hTexp, List.append_assoc]
      rw [compile_exportAttrs v e.ns a0 _ hgood0]
      rw [compile_namedAttrStream v e.ns ps _ hgoodps]
      rw [compile_all_xdata e.xdata hxd]
    have hgrp := groupTags_canonical false (compiledList v e.ns a0)
      (namedCompiled v e.ns ps) none e.xdata hb0 hbps (by intro l hl; cases hl) hxd
    have hgrp2 : groupTags false (compileVec (exportEntity e v false))
        = .ok ⟨(none, compiledList v e.ns a0) :: namedBuckets (namedCompiled v e.ns ps),
            none, [], e.xdata⟩ := by
      rw [hcomp]
      simpa [embStream, List.append_assoc] using hgrp
    refine ⟨⟨e.schema, ⟨nsFold v e.ns (allAttrs e.schema) []⟩,
      [] :: ps.map (fun _ => []), [], none, e.xdata⟩, ?_, ?_⟩
    · unfold loadEntity
      rw [hgrp2]
      simp only
      rw [heff, namedBuckets_namedCompiled]
      rw [matchBucketList_cons]
      rw [matchTags_canonical v e.ns a0 huniq0 hgood0 a0 (fun a ha => ha) []]
      rw [matchBucketList_named v e.ns ps huniqps]
      simp only
      rw [← hfoldall]
      rfl
    · have hTexp2 : exportEntity
          (DXFEntity.mk e.schema ⟨nsFold v e.ns (allAttrs e.schema) []⟩
            ([] :: ps.map (fun _ => [])) [] none e.xdata) v false
          = exportAttrs v false ⟨nsFold v e.ns (allAttrs e.schema) []⟩ a0 ++
            namedAttrStream v false ⟨nsFold v e.ns (allAttrs e.schema) []⟩ ps ++ e.xdata := by
        unfold exportEntity
        dsimp only
        rw [heff]
        rw [zipPad_all_nil _ _ (by
          intro u hu
          rcases List.mem_cons.mp hu with h | h
          · exact h
          · rw [List.mem_map] at h
            obtain ⟨q, hq, rfl⟩ := h
            rfl)]
        rw [export_shape]
        simp
      rw [hTexp2, hTexp]
      rw [exportAttrs_congr v e.ns ⟨nsFold v e.ns (allAttrs e.schema) []⟩ a0
        (fun a ha => hlook a (hsub0 a ha))]
      rw [namedAttrStream_congr v e.ns ⟨nsFold v e.ns (allAttrs e.schema) []⟩ ps
        (fun p hp a ha => hlook a (hsubs p hp a ha))]
  · -- embedded object present
    have heunk : eunk = [] := by
      rw [hembE] at hembclean
      exact List.isEmpty_iff.mp hembclean
    have hwtemb : wtB embeddedMTextAttrs ens = true := by
      rw [hembE] at hembwt
      exact hembwt
    have hgoodemb : ∀ a ∈ embeddedMTextAttrs, goodAttr ens a := by
      intro a ha
      refine ⟨emb_wf a ha, ?_⟩
      intro w hwl
      have := (List.all_eq_true.mp hwtemb) a ha
      rw [hwl] at this
      exact of_decide_eq_true this
    have hlookE : ∀ a ∈ embeddedMTextAttrs,
        lookupE (nsFold v ens embeddedMTextAttrs []) a.aname = emittedVal v ens a := by
      intro a ha
      rw [lookupE_nsFold_mem v ens embeddedMTextAttrs emb_inj_names a ha []]
      cases emittedVal v ens a <;> rfl
    have hTexp : exportEntity e v false
        = exportAttrs v false e.ns a0 ++ namedAttrStream v false e.ns ps ++
          (tag101 :: exportAttrs v false ens embeddedMTextAttrs) ++ e.xdata := by
      unfold exportEntity
      rw [hembE, hsubU2, hlooseU2, heff, heunk]
      dsimp only
      rw [zipPad_all_nil _ [] (by intro u hu; cases hu)]
      rw [export_shape]
      simp [tag101]
    have hcomp : compileVec (exportEntity e v false)
        = compiledList v e.ns a0 ++ (namedStream (namedCompiled v e.ns ps) ++
            (tag101 :: (compiledList v ens embeddedMTextAttrs ++ e.xdata))) := by
      rw [hTexp]
      rw [show exportAttrs v false e.ns a0 ++ namedAttrStream v false e.ns ps ++
          (tag101 :: exportAttrs v false ens embeddedMTextAttrs) ++ e.xdata
          = exportAttrs v false e.ns a0 ++ (namedAttrStream v false e.ns ps ++
            (tag101 :: (exportAttrs v false ens embeddedMTextAttrs ++ e.xdata))) by
        simp [List.append_assoc]]
      rw [compile_exportAttrs v e.ns a0 _ hgood0]
      rw [compile_namedAttrStream v e.ns ps _ hgoodps]
      rw [compileVec_cons_pass _ _ passTag_tag101]
      rw [compile_exportAttrs v ens embeddedMTextAttrs _ hgoodemb]
      rw [compile_all_xdata e.xdata hxd]
    have hgrp := groupTags_canonical false (compiledList v e.ns a0)
      (namedCompiled v e.ns ps) (some (compiledList v ens embeddedMTextAttrs)) e.xdata
      hb0 hbps
      (by
        rintro l hl t ht
        cases hl
        exact bodyOK_of_compiled v ens embeddedMTextAttrs emb_wf t ht)
      hxd
    have hgrp2 : groupTags false (compileVec (exportEntity e v false))
        = .ok ⟨(none, compiledList v e.ns a0) :: namedBuckets (namedCompiled v e.ns ps),
            some (compiledList v ens embeddedMTextAttrs), [], e.xdata⟩ := by
      rw [hcomp]
      simpa [embStream, List.append_assoc] using hgrp
    refine ⟨⟨e.schema, ⟨nsFold v e.ns (allAttrs e.schema) []⟩,
      [] :: ps.map (fun _ => []), [],
      some (⟨nsFold v ens embeddedMTextAttrs []⟩, []), e.xdata⟩, ?_, ?_⟩
    · unfold loadEntity
      rw [hgrp2]
      simp only
      rw [heff, namedBuckets_namedCompiled]
      rw [matchBucketList_cons]
      rw [matchTags_canonical v e.ns a0 huniq0 hgood0 a0 (fun a ha => ha) []]
      rw [matchBucketList_named v e.ns ps huniqps]
      rw [matchTags_canonical v ens embeddedMTextAttrs emb_inj_codes hgoodemb
        embeddedMTextAttrs (fun a ha => ha) []]
      simp only
      rw [← hfoldall]
      rfl
    · have hTexp2 : exportEntity
          (DXFEntity.mk e.schema ⟨nsFold v e.ns (allAttrs e.schema) []⟩
            ([] :: ps.map (fun _ => [])) []
            (some (⟨nsFold v ens embeddedMTextAttrs []⟩, [])) e.xdata) v false
          = exportAttrs v false ⟨nsFold v e.ns (allAttrs e.schema) []⟩ a0 ++
            namedAttrStream v false ⟨nsFold v e.ns (allAttrs e.schema) []⟩ ps ++
            (tag101 :: exportAttrs v false ⟨nsFold v ens embeddedMTextAttrs []⟩
              embeddedMTextAttrs) ++ e.xdata := by
        unfold exportEntity
        dsimp only
        rw [heff]
        rw [zipPad_all_nil _ _ (by
          intro u hu
          rcases List.mem_cons.mp hu with h | h
          · exact h
          · rw [List.mem_map] at h
            obtain ⟨q, hq, rfl⟩ := h
            rfl)]
        rw [export_shape]
        simp [tag101]
      rw [hTexp2, hTexp]
      rw [exportAttrs_congr v e.ns ⟨nsFold v e.ns (allAttrs e.schema) []⟩ a0
        (fun a ha => hlook a (hsub0 a ha))]
      rw [namedAttrStream_congr v e.ns ⟨nsFold v e.ns (allAttrs e.schema) []⟩ ps
        (fun p hp a ha => hlook a (hsubs p hp a ha))]
      rw [exportAttrs_congr v ens ⟨nsFold v ens embeddedMTextAttrs []⟩ embeddedMTextAttrs
        (fun a ha => hlookE a ha)]

theorem emitTags_code_mem (c : Nat) (w : DXFValue) (t : DXFTag) (ht : t ∈ emitTags c w) :
    t.code = c ∨ (kindOf w = .kVec ∧ (t.code = c + 10 ∨ t.code = c + 20)) := by
  cases w with
  | vec x y z =>
    simp only [emitTags, List.mem_cons, List.not_mem_nil, or_false] at ht
    rcases ht with h | h | h <;> subst h
    · exact Or.inl rfl
    · exact Or.inr ⟨rfl, Or.inl rfl⟩
    · exact Or.inr ⟨rfl, Or.inr rfl⟩
  | str sv =>
    simp only [emitTags, List.mem_cons, List.not_mem_nil, or_false] at ht
    subst ht
    exact Or.inl rfl
  | int iv =>
    simp only [emitTags, List.mem_cons, List.not_mem_nil, or_false] at ht
    subst ht
    exact Or.inl rfl
  | float qv =>
    simp only [emitTags, List.mem_cons, List.not_mem_nil, or_false] at ht
    subst ht
    exact Or.inl rfl

theorem emitTags_head_code (c : Nat) (w : DXFValue) :
    ∃ t ∈ emitTags c w, t.code = c := by
  cases w with
  | vec x y z => exact ⟨⟨c, .float x⟩, by simp [emitTags], rfl⟩
  | str sv => exact ⟨⟨c, .str sv⟩, by simp [emitTags], rfl⟩
  | int iv => exact ⟨⟨c, .int iv⟩, by simp [emitTags], rfl⟩
  | float qv => exact ⟨⟨c, .float qv⟩, by simp [emitTags], rfl⟩

theorem exportAttr_code_mem (v : DXFVersion) (opt : Bool) (ns : DXFNamespace)
    (b : DXFAttr) (t : DXFTag) (hg : goodAttr ns b) (ht : t ∈ exportAttr v opt ns b) :
    t.code = b.code ∨ (b.kind = .kVec ∧ (t.code = b.code + 10 ∨ t.code = b.code + 20)) := by
  unfold exportAttr at ht
  by_cases hb : (vle b.minVersion v && vle v b.maxVersion) = true
  · rw [if_pos hb] at ht
    cases hl : lookupE ns.entries b.aname with
    | some w =>
      rw [hl] at ht
      have hk : kindOf w = b.kind := hg.2 w hl
      rcases emitTags_code_mem b.code w t ht with h | h
      · exact Or.inl h
      · exact Or.inr ⟨hk ▸ h.1, h.2⟩
    | none =>
      rw [hl] at ht
      by_cases hopt : (opt && b.optional) = true
      · rw [if_pos hopt] at ht
        cases ht
      · rw [if_neg hopt] at ht
        cases hd : b.adefault with
        | some d =>
          rw [hd] at ht
          have hk : kindOf d = b.kind := (wfAttrB_spec b hg.1).2.2.2.2.2 d hd
          rcases emitTags_code_mem b.code d t ht with h | h
          · exact Or.inl h
          · exact Or.inr ⟨hk ▸ h.1, h.2⟩
        | none =>
          rw [hd] at ht
          cases ht
  · rw [if_neg hb] at ht
    cases ht

theorem mem_exportAttrs_decomp (v : DXFVersion) (opt : Bool) (ns : DXFNamespace)
    (attrs : List DXFAttr) (t : DXFTag) (ht : t ∈ exportAttrs v opt ns attrs) :
    ∃ b ∈ attrs, t ∈ exportAttr v opt ns b := by
  unfold exportAttrs at ht
  rw [List.mem_flatten] at ht
  obtain ⟨l, hl, htl⟩ := ht
  rw [List.mem_map] at hl
  obtain ⟨b, hb, rfl⟩ := hl
  exact ⟨b, hb, htl⟩

theorem mem_namedAttrStream_decomp (v : DXFVersion) (opt : Bool) (ns : DXFNamespace)
    (ps : List (String × List DXFAttr)) (t : DXFTag) (ht : t ∈ namedAttrStream v opt ns ps) :
    t.code = 100 ∨ ∃ q ∈ ps, ∃ b ∈ q.2, t ∈ exportAttr v opt ns b := by
  unfold namedAttrStream at ht
  rw [List.mem_flatten] at ht
  obtain ⟨l, hl, htl⟩ := ht
  rw [List.mem_map] at hl
  obtain ⟨q, hq, rfl⟩ := hl
  rcases List.mem_cons.mp htl with h | h
  · rw [h]
    exact Or.inl rfl
  · obtain ⟨b, hb, hbt⟩ := mem_exportAttrs_decomp v opt ns q.2 t h
    exact Or.inr ⟨q, hq, b, hb, hbt⟩

theorem code_ne_of_distinct (es : EntitySchema) (v : DXFVersion) (opt : Bool)
    (ns : DXFNamespace) (a b : DXFAttr) (t : DXFTag)
    (hinjC : ∀ ⦃x : DXFAttr⦄, x ∈ allAttrs es → ∀ ⦃y : DXFAttr⦄, y ∈ allAttrs es →
      x.code = y.code → x = y)
    (ha : a ∈ allAttrs es) (hb : b ∈ allAttrs es)
    (hwa : wfAttrB a = true) (hwb : wfAttrB b = true)
    (hg : goodAttr ns b) (ht : t ∈ exportAttr v opt ns b)
    (hskip : exportAttr v opt ns a = []) : t.code ≠ a.code := by
  intro hcode
  rcases exportAttr_code_mem v opt ns b t hg ht with h | h
  · have hba : b = a := hinjC hb ha (by rw [← h, hcode])
    rw [hba, hskip] at ht
    cases ht
  · have hbr := (wfAttrB_spec b hwb).2.2.2.1 h.1
    have hsa := wfAttrB_spec a hwa
    rcases h.2 with h2 | h2
    · by_cases hak : a.kind = .kVec
      · have := hsa.2.2.2.1 hak
        omega
      · have := hsa.2.2.2.2.1 hak
        omega
    · by_cases hak : a.kind = .kVec
      · have := hsa.2.2.2.1 hak
        omega
      · have := hsa.2.2.2.2.1 hak
        omega

theorem export_canonical_noemb (v : DXFVersion) (opt : Bool) (e : DXFEntity)
    (a0 : List DXFAttr) (ps : List (String × List DXFAttr))
    (heff : effectiveSubclasses e.schema v = (none, a0) :: ps.map (fun p => (some p.1, p.2)))
    (hsubU2 : e.subUnknown = []) (hlooseU2 : e.looseUnknown = [])
    (hembE : e.embedded = none) :
    exportEntity e v opt
      = exportAttrs v opt e.ns a0 ++ namedAttrStream v opt e.ns ps ++ e.xdata := by
  unfold exportEntity
  rw [hembE, hsubU2, hlooseU2, heff]
  dsimp only
  rw [zipPad_all_nil _ [] (by intro u hu; cases hu)]
  rw [export_shape]
  simp

theorem export_code_absent (v : DXFVersion) (opt : Bool) (e : DXFEntity) (a : DXFAttr)
    (hwf : wfSchemaB e.schema = true) (hwt : wtB (allAttrs e.schema) e.ns = true)
    (hsubU2 : e.subUnknown = []) (hlooseU2 : e.looseUnknown = [])
    (hembE : e.embedded = none) (hxd : ∀ t ∈ e.xdata, isXData t = true)
    (ha : a ∈ allAttrs e.schema)
    (hskip : exportAttr v opt e.ns a = []) :
    ∀ t ∈ exportEntity e v opt, t.code ≠ a.code := by
  unfold wfSchemaB at hwf
  simp only [Bool.and_eq_true] at hwf
  obtain ⟨⟨hnodupN, hnodupC⟩, hallwf⟩ := hwf
  have hinjC := List.inj_on_of_nodup_map (of_decide_eq_true hnodupC)
  have hallwf2 : ∀ b ∈ allAttrs e.schema, wfAttrB b = true := List.all_eq_true.mp hallwf
  have hgood : ∀ b ∈ allAttrs e.schema, goodAttr e.ns b := by
    intro b hb
    refine ⟨hallwf2 b hb, ?_⟩
    intro w hwl
    have := (List.all_eq_true.mp hwt) b hb
    rw [hwl] at this
    exact of_decide_eq_true this
  obtain ⟨a0, ps, heff, hflat⟩ := effs_shape e.schema v
  have hsub0 : ∀ b ∈ a0, b ∈ allAttrs e.schema := by
    intro b hb
    rw [← hflat]
    exact List.mem_append_left _ hb
  have hsubs : ∀ p ∈ ps, ∀ b ∈ p.2, b ∈ allAttrs e.schema := by
    intro p hp b hb
    rw [← hflat]
    refine List.mem_append_right _ ?_
    rw [List.mem_flatten]
    exact ⟨p.2, List.mem_map.mpr ⟨p, hp, rfl⟩, hb⟩
  intro t htmem
  rw [export_canonical_noemb v opt e a0 ps heff hsubU2 hlooseU2 hembE] at htmem
  have hawf := hallwf2 a ha
  rcases List.mem_append.mp htmem with h | h
  · rcases List.mem_append.mp h with h | h
    · obtain ⟨b, hb, hbt⟩ := mem_exportAttrs_decomp v opt e.ns a0 t h
      exact code_ne_of_distinct e.schema v opt e.ns a b t hinjC ha (hsub0 b hb)
        hawf (hallwf2 b (hsub0 b hb)) (hgood b (hsub0 b hb)) hbt hskip
    · rcases mem_namedAttrStream_decomp v opt e.ns ps t h with h | ⟨q, hq, b, hb, hbt⟩
      · rw [h]
        intro hh
        exact (wfAttrB_spec a hawf).1 hh.symm
      · exact code_ne_of_distinct e.schema v opt e.ns a b t hinjC ha (hsubs q hq b hb)
          hawf (hallwf2 b (hsubs q hq b hb)) (hgood b (hsubs q hq b hb)) hbt hskip
  · have h1000 : 1000 ≤ t.code := of_decide_eq_true (hxd t h)
    have := (wfAttrB_spec a hawf).2.2.1
    omega

theorem export_code_present (v : DXFVersion) (e : DXFEntity) (a : DXFAttr) (d : DXFValue)
    (ha : a ∈ allAttrs e.schema)
    (hsubU2 : e.subUnknown = []) (hlooseU2 : e.looseUnknown = [])
    (hembE : e.embedded = none)
    (hbr1 : vle a.minVersion v = true) (hbr2 : vle v a.maxVersion = true)
    (hunset : lookupE e.ns.entries a.aname = none)
    (hdef : a.adefault = some d) :
    ∃ t ∈ exportEntity e v false, t.code = a.code := by
  obtain ⟨a0, ps, heff, hflat⟩ := effs_shape e.schema v
  have hEA : exportAttr v false e.ns a = emitTags a.code d := by
    unfold exportAttr
    rw [if_pos (by rw [hbr1, hbr2]; rfl), hunset, hdef]
    simp
  obtain ⟨t, htm, htc⟩ := emitTags_head_code a.code d
  rw [export_canonical_noemb v false e a0 ps heff hsubU2 hlooseU2 hembE]
  rw [← hflat] at ha
  rcases List.mem_append.mp ha with h | h
  · refine ⟨t, ?_, htc⟩
    refine List.mem_append_left _ (List.mem_append_left _ ?_)
    unfold exportAttrs
    rw [List.mem_flatten]
    exact ⟨exportAttr v false e.ns a, List.mem_map.mpr ⟨a, h, rfl⟩, hEA ▸ htm⟩
  · rw [List.mem_flatten] at h
    obtain ⟨l, hl, hal⟩ := h
    rw [List.mem_map] at hl
    obtain ⟨q, hq, rfl⟩ := hl
    refine ⟨t, ?_, htc⟩
    refine List.mem_append_left _ (List.mem_append_right _ ?_)
    unfold namedAttrStream
    rw [List.mem_flatten]
    refine ⟨tag100 q.1 :: exportAttrs v false e.ns q.2, List.mem_map.mpr ⟨q, hq, rfl⟩, ?_⟩
    refine List.mem_cons_of_mem _ ?_
    unfold exportAttrs
    rw [List.mem_flatten]
    exact ⟨exportAttr v false e.ns a, List.mem_map.mpr ⟨a, hal, rfl⟩, hEA ▸ htm⟩


theorem lookupE_copyAttrVal_ne (host : DXFEntity) (n m : String)
    (l : List (String × DXFValue)) (h : m ≠ n) :
    lookupE (copyAttrVal host n l) m = lookupE l m := by
  unfold copyAttrVal
  cases nsGet host.schema host.ns n with
  | ok v => exact lookupE_setEntry_ne l n m v h
  | error er => rfl

/-- Claim C2: parsing a minimal ATTDEF record whose base subclass carries tags
5:"0", 8:"0", 10/20/30:0.0, 40:1.0, 1:"DEFAULTTEXT", 7:"STANDARD", 2:"TAG"
under DXF version R12 yields an entity whose layer reads "0", whose color
reads 256 (the by-layer default, never explicitly set) and whose insert
reads (0, 0, 0). -/
theorem c2_minimal_attdef_scenario :
    ∃ e, loadEntity attdefSchema .R12 false scenarioTagsR12 = .ok e ∧
      nsGet e.schema e.ns "layer" = .ok (.str "0") ∧
      nsGet e.schema e.ns "color" = .ok (.int 256) ∧
      e.ns.hasExplicit "color" = false ∧
      nsGet e.schema e.ns "insert" = .ok (.vec 0 0 0) := by
  refine ⟨⟨attdefSchema,
    ⟨[("handle", .str "0"), ("layer", .str "0"), ("insert", .vec 0 0 0),
      ("height", .float 1), ("text", .str "DEFAULTTEXT"), ("style", .str "STANDARD"),
      ("tag", .str "TAG")]⟩, [[]], [], none, []⟩, ?_, ?_, ?_, ?_, ?_⟩ <;> rfl

/-- Claim C6: for every namespace and attribute with a schema default,
reading an attribute that was never set returns the schema default and
leaves the attribute unmarked, while a successful write always marks it
explicit; this holds after any sequence of namespace operations. -/
theorem c6_namespace_get_set_invariant :
    ∀ (es : EntitySchema) (ops : List NsOp) (n : String) (a : DXFAttr) (d : DXFValue),
      findAttr es n = some a → a.adefault = some d →
      ((applyOps es ops ⟨[]⟩).hasExplicit n = false →
        nsGet es (applyOps es ops ⟨[]⟩) n = .ok d) ∧
      (nsGetS es (applyOps es ops ⟨[]⟩) n).2 = applyOps es ops ⟨[]⟩ ∧
      (∀ (w : DXFValue) (ns2 : DXFNamespace),
        nsSet es (applyOps es ops ⟨[]⟩) n w = .ok ns2 → ns2.hasExplicit n = true) := by
  intro es ops n a d hfind hdef
  refine ⟨?_, rfl, ?_⟩
  · intro hx
    unfold DXFNamespace.hasExplicit at hx
    unfold nsGet
    cases hl : lookupE (applyOps es ops ⟨[]⟩).entries n with
    | some w =>
      rw [hl] at hx
      cases hx
    | none =>
      simp [hfind, hdef]
  · intro w ns2 hset
    by_cases hk : kindOf w = a.kind
    · simp only [nsSet, hfind, hk, if_true] at hset
      cases hset
      unfold DXFNamespace.hasExplicit
      rw [lookupE_setEntry_self]
      rfl
    · simp [nsSet, hfind, hk] at hset

/-- Claim C7: coordinate attributes are read and written only as a composite
vector: writing a lone float component to a 3-part coordinate attribute is
rejected, and after setting all three components the read returns exactly
the triple that was set. -/
theorem c7_coordinate_atomicity :
    ∀ (es : EntitySchema) (ns : DXFNamespace) (n : String) (a : DXFAttr),
      findAttr es n = some a → a.kind = .kVec →
      (∀ x : Rat, nsSet es ns n (.float x) = .error .InvalidValueKind) ∧
      (∀ x y z : Rat, ∃ ns2, nsSet es ns n (.vec x y z) = .ok ns2 ∧
        nsGet es ns2 n = .ok (.vec x y z)) := by
  intro es ns n a hfind hkind
  constructor
  · intro x
    simp [nsSet, hfind, hkind, kindOf]
  · intro x y z
    refine ⟨⟨setEntry ns.entries n (.vec x y z)⟩, ?_, ?_⟩
    · simp [nsSet, hfind, hkind, kindOf]
    · simp [nsGet, lookupE_setEntry_self]

/-- Claim C8: the virtual MTEXT entity produced for an embedded object
carries the same graphic attribute values (layer, color) as its host,
obtained by copying the host values on creation of the view, so reading
layer and color on the virtual entity returns the host values. -/
theorem c8_virtual_entity_graphics :
    ∀ (host : DXFEntity) (ens : DXFNamespace) (eunk : List DXFTag) (lv cv : DXFValue),
      host.embedded = some (ens, eunk) →
      nsGet host.schema host.ns "layer" = .ok lv →
      nsGet host.schema host.ns "color" = .ok cv →
      ∃ m, virtualMtextEntity host = some m ∧
        nsGet m.schema m.ns "layer" = .ok lv ∧
        nsGet m.schema m.ns "color" = .ok cv := by
  intro host ens eunk lv cv hemb hlv hcv
  refine ⟨_, by unfold virtualMtextEntity; rw [hemb], ?_, ?_⟩
  · show nsGet mtextSchema ⟨copyAttrVal host "color" (copyAttrVal host "layer" ens.entries)⟩
      "layer" = .ok lv
    unfold nsGet
    rw [show lookupE (copyAttrVal host "color" (copyAttrVal host "layer" ens.entries)) "layer"
        = some lv by
      rw [lookupE_copyAttrVal_ne host "color" "layer" _ (by decide)]
      unfold copyAttrVal
      rw [hlv]
      exact lookupE_setEntry_self _ _ _]
  · show nsGet mtextSchema ⟨copyAttrVal host "color" (copyAttrVal host "layer" ens.entries)⟩
      "color" = .ok cv
    unfold nsGet
    rw [show lookupE (copyAttrVal host "color" (copyAttrVal host "layer" ens.entries)) "color"
        = some cv by
      unfold copyAttrVal
      rw [hcv]
      exact lookupE_setEntry_self _ _ _]

/-- Claim C10: for an entity carrying an embedded MTEXT object, the
plain-text accessors decode the MTEXT paragraph separator: plain_mtext on
the host and plain_text on the virtual MTEXT entity both return the
embedded content with every backslash-P sequence replaced by a newline,
for example "TEST VENUE\\PTEST FLOOR PLAN" reads back as two lines. -/
theorem c10_plain_mtext_decoding :
    ∀ (host : DXFEntity) (ens : DXFNamespace) (eunk : List DXFTag) (s : String),
      host.embedded = some (ens, eunk) →
      lookupE ens.entries "text" = some (.str s) →
      plainMtext host = some (plainMtextStr s) ∧
      (∃ m, virtualMtextEntity host = some m ∧ plainText m = some (plainMtextStr s)) ∧
      plainMtextStr "TEST VENUE\\PTEST FLOOR PLAN" = "TEST VENUE\nTEST FLOOR PLAN" := by
  intro host ens eunk s hemb htext
  refine ⟨?_, ⟨_, by unfold virtualMtextEntity; rw [hemb], ?_⟩, by decide⟩
  · simp [plainMtext, hemb, nsGet, htext]
  · show plainText ⟨mtextSchema,
      ⟨copyAttrVal host "color" (copyAttrVal host "layer" ens.entries)⟩,
      [], eunk, none, []⟩ = some (plainMtextStr s)
    unfold plainText
    dsimp only
    unfold nsGet
    rw [show lookupE (copyAttrVal host "color" (copyAttrVal host "layer" ens.entries)) "text"
        = some (.str s) by
      rw [lookupE_copyAttrVal_ne host "color" "text" _ (by decide)]
      rw [lookupE_copyAttrVal_ne host "layer" "text" _ (by decide)]
      exact htext]


/-- Claim C9: grouping a record holding two code-100 subclass markers, then a
code-101 embedded-object marker, then a second illegal code-101 raises
SchemaViolationError in strict mode; tolerant mode does not raise but
truncates the embedded region at the second marker and keeps the remaining
tags as unknown tags. -/
theorem c9_double_embedded_marker :
    ∀ (b0 b1 b2 em r : List DXFTag) (s1 s2 : String) (m1 m2 : DXFValue),
      (∀ t ∈ b0 ++ b1 ++ b2, bodyOK t) →
      (∀ t ∈ em, t.code ≠ 101 ∧ t.code < 1000) →
      (∀ t ∈ r, t.code < 1000) →
      groupTags true (b0 ++ [tag100 s1] ++ b1 ++ [tag100 s2] ++ b2 ++
          (⟨101, m1⟩ :: (em ++ (⟨101, m2⟩ :: r)))) = .error .SchemaViolation ∧
      groupTags false (b0 ++ [tag100 s1] ++ b1 ++ [tag100 s2] ++ b2 ++
          (⟨101, m1⟩ :: (em ++ (⟨101, m2⟩ :: r))))
        = .ok ⟨[(none, b0), (some s1, b1), (some s2, b2)], some em, ⟨101, m2⟩ :: r, []⟩ := by
  intro b0 b1 b2 em r s1 s2 m1 m2 hb hem hr
  have hb0 : ∀ t ∈ b0, bodyOK t := by
    intro t ht
    exact hb t (List.mem_append_left _ (List.mem_append_left _ ht))
  have hb1 : ∀ t ∈ b1, bodyOK t := by
    intro t ht
    exact hb t (List.mem_append_left _ (List.mem_append_right _ ht))
  have hb2 : ∀ t ∈ b2, bodyOK t := by
    intro t ht
    exact hb t (List.mem_append_right _ ht)
  have hQ101 : ∀ t ∈ b0 ++ [tag100 s1] ++ b1 ++ [tag100 s2] ++ b2,
      (fun t => decide (t.code ≠ 101)) t = true := by
    intro t ht
    simp only [List.mem_append, List.mem_singleton] at ht
    rcases ht with (((h | h) | h) | h) | h
    · exact decide_eq_true (hb0 t h).2.1
    · rw [h]; rfl
    · exact decide_eq_true (hb1 t h).2.1
    · rw [h]; rfl
    · exact decide_eq_true (hb2 t h).2.1
  have hQx : ∀ t ∈ b0 ++ [tag100 s1] ++ b1 ++ [tag100 s2] ++ b2,
      (fun t => !isXData t) t = true := by
    intro t ht
    simp only [List.mem_append, List.mem_singleton] at ht
    simp only [Bool.not_eq_true', isXData, decide_eq_false_iff_not, not_le]
    rcases ht with (((h | h) | h) | h) | h
    · exact (hb0 t h).2.2
    · rw [h]; simp [tag100]
    · exact (hb1 t h).2.2
    · rw [h]; simp [tag100]
    · exact (hb2 t h).2.2
  have hTx : ∀ t ∈ (⟨101, m1⟩ : DXFTag) :: (em ++ (⟨101, m2⟩ :: r)),
      (fun t => !isXData t) t = true := by
    intro t ht
    simp only [Bool.not_eq_true', isXData, decide_eq_false_iff_not, not_le]
    rcases List.mem_cons.mp ht with h | h
    · rw [h]; simp
    · rcases List.mem_append.mp h with h | h
      · exact (hem t h).2
      · rcases List.mem_cons.mp h with h | h
        · rw [h]; simp
        · exact hr t h
  have hem101 : ∀ t ∈ em, (fun t => decide (t.code ≠ 101)) t = true :=
    fun t ht => decide_eq_true (hem t ht).1
  have key : ∀ strict : Bool,
      groupTags strict (b0 ++ [tag100 s1] ++ b1 ++ [tag100 s2] ++ b2 ++
        (⟨101, m1⟩ :: (em ++ (⟨101, m2⟩ :: r))))
      = (if strict then .error .SchemaViolation
         else .ok ⟨[(none, b0), (some s1, b1), (some s2, b2)], some em, ⟨101, m2⟩ :: r, []⟩) := by
    intro strict
    unfold groupTags
    dsimp only
    rw [List.takeWhile_append_of_pos hQx, List.dropWhile_append_of_pos hQx]
    rw [tw_all _ _ hTx, dw_all _ _ hTx]
    rw [List.takeWhile_append_of_pos hQ101, List.dropWhile_append_of_pos hQ101]
    rw [List.takeWhile_cons_of_neg (by simp), List.dropWhile_cons_of_neg (by simp)]
    rw [List.append_nil]
    dsimp only
    rw [List.takeWhile_append_of_pos hem101, List.dropWhile_append_of_pos hem101]
    rw [List.takeWhile_cons_of_neg (by simp), List.dropWhile_cons_of_neg (by simp)]
    rw [List.append_nil]
    dsimp only
    rw [show b0 ++ [tag100 s1] ++ b1 ++ [tag100 s2] ++ b2
        = b0 ++ namedStream [(s1, b1), (s2, b2)] by
      simp [namedStream, List.append_assoc]]
    rw [splitSubclasses_canonical b0 [(s1, b1), (s2, b2)]
      (fun t ht => (hb0 t ht).1)
      (by
        intro p hp t ht
        rcases List.mem_cons.mp hp with h | h
        · exact (hb1 t (by rw [h] at ht; exact ht)).1
        · rcases List.mem_cons.mp h with h2 | h2
          · exact (hb2 t (by rw [h2] at ht; exact ht)).1
          · cases h2)]
    cases strict <;> rfl
  exact ⟨by rw [key true]; rfl, by rw [key false]; rfl⟩


theorem wf_attdef : wfSchemaB attdefSchema = true := by decide

theorem wf_line : wfSchemaB lineSchema = true := by decide

theorem wf_of_registry : ∀ es ∈ schemaRegistry, wfSchemaB es = true := by
  intro es hes
  simp only [schemaRegistry, List.mem_cons, List.not_mem_nil, or_false] at hes
  rcases hes with h | h <;> subst h
  · exact wf_attdef
  · exact wf_line

/-- Claim C1: for every entity type in the schema registry, exporting a
parsed entity reproduces the original tag sequence exactly and in order:
for any clean, well-typed entity of a registered schema with every
attribute explicitly set, and tags its export in optional=False mode,
export(parse(tags), version) equals tags. -/
theorem c1_registry_roundtrip :
    ∀ es ∈ schemaRegistry, ∀ (v : DXFVersion) (e : DXFEntity),
      e.schema = es → roundtripReady e = true → allExplicitB e = true →
      ∃ e2, loadEntity es v false (exportEntity e v false) = .ok e2 ∧
        exportEntity e2 v false = exportEntity e v false := by
  intro es hes v e hsch hready _
  exact roundtrip_core es v e (wf_of_registry es hes) hsch hready

/-- Witness for C1 at a fully explicit ATTDEF entity and version R2000. -/
theorem c1_registry_roundtrip_witness :
    (attdefSchema ∈ schemaRegistry ∧ sampleEnt.schema = attdefSchema ∧
      roundtripReady sampleEnt = true ∧ allExplicitB sampleEnt = true) ∧
    (∃ e2, loadEntity attdefSchema .R2000 false (exportEntity sampleEnt .R2000 false) = .ok e2 ∧
      exportEntity e2 .R2000 false = exportEntity sampleEnt .R2000 false) :=
  ⟨⟨by decide, rfl, by decide, by decide⟩,
   c1_registry_roundtrip attdefSchema (by decide) .R2000 sampleEnt rfl (by decide) (by decide)⟩

theorem exportAttrs_code_ne101 (v : DXFVersion) (opt : Bool) (ns : DXFNamespace)
    (attrs : List DXFAttr) (hg : ∀ b ∈ attrs, goodAttr ns b) :
    ∀ t ∈ exportAttrs v opt ns attrs, t.code ≠ 101 := by
  intro t ht
  obtain ⟨b, hb, hbt⟩ := mem_exportAttrs_decomp v opt ns attrs t ht
  have hspec := wfAttrB_spec b (hg b hb).1
  rcases exportAttr_code_mem v opt ns b t (hg b hb) hbt with h | h
  · rw [h]
    exact hspec.2.1
  · have := hspec.2.2.2.1 h.1
    rcases h.2 with h2 | h2 <;> omega

/-- Claim C3: on export an entity's embedded-object sub-stream is re-emitted
immediately after its host subclasses, preceded by a single code-101 marker
tag: the export is the subclass region, then exactly one code-101 marker,
then the embedded attributes, then the trailing XDATA; and a parse-then-
export round trip of such a record reproduces the original tag sequence. -/
theorem c3_embedded_object_roundtrip :
    ∀ es ∈ schemaRegistry, ∀ (v : DXFVersion) (e : DXFEntity) (ens : DXFNamespace)
      (eunk : List DXFTag),
      e.schema = es → roundtripReady e = true → e.embedded = some (ens, eunk) →
      (exportEntity e v false
        = ((zipPad (effectiveSubclasses es v) e.subUnknown).map
            (exportBucket v false e.ns)).flatten ++
          tag101 :: (exportAttrs v false ens embeddedMTextAttrs ++ e.xdata)) ∧
      List.countP (fun t => decide (t.code = 101)) (exportEntity e v false) = 1 ∧
      ∃ e2, loadEntity es v false (exportEntity e v false) = .ok e2 ∧
        exportEntity e2 v false = exportEntity e v false := by
  intro es hes v e ens eunk hsch hready hembE
  have hwf := wf_of_registry es hes
  subst hsch
  have hready2 := hready
  unfold roundtripReady at hready2
  simp only [Bool.and_eq_true] at hready2
  obtain ⟨⟨hwt, hclean⟩, hembwt⟩ := hready2
  unfold cleanB at hclean
  simp only [Bool.and_eq_true] at hclean
  obtain ⟨⟨⟨hsubU, hlooseU⟩, hxdall⟩, hembclean⟩ := hclean
  have hlooseU2 : e.looseUnknown = [] := List.isEmpty_iff.mp hlooseU
  have heunk : eunk = [] := by
    rw [hembE] at hembclean
    exact List.isEmpty_iff.mp hembclean
  subst heunk
  have hxd : ∀ t ∈ e.xdata, isXData t = true := List.all_eq_true.mp hxdall
  have hwtemb : wtB embeddedMTextAttrs ens = true := by
    rw [hembE] at hembwt
    exact hembwt
  have hgoodemb : ∀ b ∈ embeddedMTextAttrs, goodAttr ens b := by
    intro b hb
    refine ⟨emb_wf b hb, ?_⟩
    intro w hwl
    have := (List.all_eq_true.mp hwtemb) b hb
    rw [hwl] at this
    exact of_decide_eq_true this
  refine ⟨?_, ?_, roundtrip_core e.schema v e hwf rfl hready⟩
  · unfold exportEntity
    rw [hembE, hlooseU2]
    simp [tag101, List.append_assoc]
  · have hstruct : exportEntity e v false
        = ((zipPad (effectiveSubclasses e.schema v) e.subUnknown).map
            (exportBucket v false e.ns)).flatten ++
          tag101 :: (exportAttrs v false ens embeddedMTextAttrs ++ e.xdata) := by
      unfold exportEntity
      rw [hembE, hlooseU2]
      simp [tag101, List.append_assoc]
    rw [hstruct]
    rw [List.countP_append]
    have hfl : List.countP (fun t => decide (t.code = 101))
        (((zipPad (effectiveSubclasses e.schema v) e.subUnknown).map
          (exportBucket v false e.ns)).flatten) = 0 := by
      rw [List.countP_eq_zero]
      intro t ht
      simp only [decide_eq_true_eq]
      have hsubU2 : e.subUnknown = [] := List.isEmpty_iff.mp hsubU
      obtain ⟨a0, ps, heff, hflat⟩ := effs_shape e.schema v
      unfold wfSchemaB at hwf
      simp only [Bool.and_eq_true] at hwf
      obtain ⟨⟨hnodupN, hnodupC⟩, hallwf⟩ := hwf
      have hallwf2 : ∀ b ∈ allAttrs e.schema, wfAttrB b = true := List.all_eq_true.mp hallwf
      have hgood : ∀ b ∈ allAttrs e.schema, goodAttr e.ns b := by
        intro b hb
        refine ⟨hallwf2 b hb, ?_⟩
        intro w hwl
        have := (List.all_eq_true.mp hwt) b hb
        rw [hwl] at this
        exact of_decide_eq_true this
      have hsub0 : ∀ b ∈ a0, b ∈ allAttrs e.schema := by
        intro b hb
        rw [← hflat]
        exact List.mem_append_left _ hb
      have hsubs : ∀ p ∈ ps, ∀ b ∈ p.2, b ∈ allAttrs e.schema := by
        intro p hp b hb
        rw [← hflat]
        refine List.mem_append_right _ ?_
        rw [List.mem_flatten]
        exact ⟨p.2, List.mem_map.mpr ⟨p, hp, rfl⟩, hb⟩
      rw [hsubU2, heff] at ht
      rw [zipPad_all_nil _ [] (by intro u hu; cases hu)] at ht
      rw [export_shape] at ht
      rcases List.mem_append.mp ht with h | h
      · exact exportAttrs_code_ne101 v false e.ns a0 (fun b hb => hgood b (hsub0 b hb)) t h
      · rcases mem_namedAttrStream_decomp v false e.ns ps t h with h | ⟨q, hq, b, hb, hbt⟩
        · omega
        · have hgq : goodAttr e.ns b := hgood b (hsubs q hq b hb)
          have hspec := wfAttrB_spec b hgq.1
          rcases exportAttr_code_mem v false e.ns b t hgq hbt with h2 | h2
          · rw [h2]
            exact hspec.2.1
          · have := hspec.2.2.2.1 h2.1
            rcases h2.2 with h3 | h3 <;> omega
    rw [hfl]
    rw [List.countP_cons]
    have hEA : List.countP (fun t => decide (t.code = 101))
        (exportAttrs v false ens embeddedMTextAttrs ++ e.xdata) = 0 := by
      rw [List.countP_append]
      have h1 : List.countP (fun t => decide (t.code = 101))
          (exportAttrs v false ens embeddedMTextAttrs) = 0 := by
        rw [List.countP_eq_zero]
        intro t ht
        simp only [decide_eq_true_eq]
        exact exportAttrs_code_ne101 v false ens embeddedMTextAttrs hgoodemb t ht
      have h2 : List.countP (fun t => decide (t.code = 101)) e.xdata = 0 := by
        rw [List.countP_eq_zero]
        intro t ht
        simp only [decide_eq_true_eq]
        have := of_decide_eq_true (hxd t ht)
        omega
      rw [h1, h2]
    rw [hEA]
    simp [tag101]

/-- Witness for C3 at the sample embedded-MTEXT ATTDEF entity at R2018. -/
theorem c3_embedded_object_roundtrip_witness :
    (attdefSchema ∈ schemaRegistry ∧ sampleEmbEnt.schema = attdefSchema ∧
      roundtripReady sampleEmbEnt = true ∧ sampleEmbEnt.embedded = some (embNs, [])) ∧
    ((exportEntity sampleEmbEnt .R2018 false
        = ((zipPad (effectiveSubclasses attdefSchema .R2018) sampleEmbEnt.subUnknown).map
            (exportBucket .R2018 false sampleEmbEnt.ns)).flatten ++
          tag101 :: (exportAttrs .R2018 false embNs embeddedMTextAttrs ++ sampleEmbEnt.xdata)) ∧
      List.countP (fun t => decide (t.code = 101)) (exportEntity sampleEmbEnt .R2018 false) = 1 ∧
      ∃ e2, loadEntity attdefSchema .R2018 false (exportEntity sampleEmbEnt .R2018 false) = .ok e2 ∧
        exportEntity e2 .R2018 false = exportEntity sampleEmbEnt .R2018 false) :=
  ⟨⟨by decide, rfl, by decide, rfl⟩,
   c3_embedded_object_roundtrip attdefSchema (by decide) .R2018 sampleEmbEnt embNs []
     rfl (by decide) rfl⟩


/-- Claim C4: an attribute that was never explicitly set and whose current
value equals its schema default is absent from the optional=True export and
present in the optional=False export (for an exportable optional attribute
of a registered, clean entity). -/
theorem c4_default_suppression :
    ∀ es ∈ schemaRegistry, ∀ (v : DXFVersion) (e : DXFEntity) (a : DXFAttr) (d : DXFValue),
      e.schema = es → roundtripReady e = true → e.embedded = none →
      a ∈ allAttrs es → a.adefault = some d →
      e.ns.hasExplicit a.aname = false → a.optional = true →
      vle a.minVersion v = true → vle v a.maxVersion = true →
      (∀ t ∈ exportEntity e v true, t.code ≠ a.code) ∧
      (∃ t ∈ exportEntity e v false, t.code = a.code) := by
  intro es hes v e a d hsch hready hembE ha hdef hunset hopt hbr1 hbr2
  have hwf := wf_of_registry es hes
  subst hsch
  unfold roundtripReady at hready
  simp only [Bool.and_eq_true] at hready
  obtain ⟨⟨hwt, hclean⟩, _⟩ := hready
  unfold cleanB at hclean
  simp only [Bool.and_eq_true] at hclean
  obtain ⟨⟨⟨hsubU, hlooseU⟩, hxdall⟩, _⟩ := hclean
  have hsubU2 : e.subUnknown = [] := List.isEmpty_iff.mp hsubU
  have hlooseU2 : e.looseUnknown = [] := List.isEmpty_iff.mp hlooseU
  have hxd : ∀ t ∈ e.xdata, isXData t = true := List.all_eq_true.mp hxdall
  have hl : lookupE e.ns.entries a.aname = none := by
    cases hl2 : lookupE e.ns.entries a.aname with
    | some w =>
      unfold DXFNamespace.hasExplicit at hunset
      rw [hl2] at hunset
      cases hunset
    | none => rfl
  constructor
  · refine export_code_absent v true e a hwf hwt hsubU2 hlooseU2 hembE hxd ha ?_
    simp [exportAttr, hbr1, hbr2, hl, hopt]
  · exact export_code_present v e a d ha hsubU2 hlooseU2 hembE hbr1 hbr2 hl hdef

/-- Witness for C4: the color attribute of a sparse ATTDEF entity at R2000. -/
theorem c4_default_suppression_witness :
    (attdefSchema ∈ schemaRegistry ∧ sparseEnt.schema = attdefSchema ∧
      roundtripReady sparseEnt = true ∧ sparseEnt.embedded = none ∧
      (⟨"color", 62, .kInt, some (.int 256), .R12, .R2018, true⟩ : DXFAttr) ∈
        allAttrs attdefSchema ∧
      sparseEnt.ns.hasExplicit "color" = false) ∧
    ((∀ t ∈ exportEntity sparseEnt .R2000 true,
        t.code ≠ (⟨"color", 62, .kInt, some (.int 256), .R12, .R2018, true⟩ : DXFAttr).code) ∧
      (∃ t ∈ exportEntity sparseEnt .R2000 false,
        t.code = (⟨"color", 62, .kInt, some (.int 256), .R12, .R2018, true⟩ : DXFAttr).code)) :=
  ⟨⟨by decide, rfl, by decide, rfl, by decide, by decide⟩,
   c4_default_suppression attdefSchema (by decide) .R2000 sparseEnt
     ⟨"color", 62, .kInt, some (.int 256), .R12, .R2018, true⟩ (.int 256)
     rfl (by decide) rfl (by decide) rfl (by decide) rfl (by decide) (by decide)⟩

/-- Claim C5: an attribute whose spec has minimum version R2007 is absent
from an export targeting R2000 regardless of whether it was set; and on
read, a tag whose only matching spec entries are gated beyond the declared
version is treated as unknown. -/
theorem c5_version_gating :
    (∀ es ∈ schemaRegistry, ∀ (opt : Bool) (e : DXFEntity) (a : DXFAttr),
      e.schema = es → roundtripReady e = true → e.embedded = none →
      a ∈ allAttrs es → a.minVersion = .R2007 →
      ∀ t ∈ exportEntity e .R2000 opt, t.code ≠ a.code) ∧
    (∀ (v : DXFVersion) (attrs : List DXFAttr) (t : DXFTag) (rest : List DXFTag)
      (acc : List (String × DXFValue)),
      (∀ b ∈ attrs, b.code = t.code → vle b.minVersion v = false) →
      matchTags v attrs (t :: rest) acc
        = ((matchTags v attrs rest acc).1, t :: (matchTags v attrs rest acc).2)) := by
  constructor
  · intro es hes opt e a hsch hready hembE ha hmin
    have hwf := wf_of_registry es hes
    subst hsch
    unfold roundtripReady at hready
    simp only [Bool.and_eq_true] at hready
    obtain ⟨⟨hwt, hclean⟩, _⟩ := hready
    unfold cleanB at hclean
    simp only [Bool.and_eq_true] at hclean
    obtain ⟨⟨⟨hsubU, hlooseU⟩, hxdall⟩, _⟩ := hclean
    refine export_code_absent .R2000 opt e a hwf hwt (List.isEmpty_iff.mp hsubU)
      (List.isEmpty_iff.mp hlooseU) hembE (List.all_eq_true.mp hxdall) ha ?_
    unfold exportAttr
    rw [if_neg (by rw [hmin]; simp [vle, DXFVersion.rank])]
  · intro v attrs t rest acc hgate
    have hfind : attrs.find? (fun b =>
        decide (b.code = t.code) && vle b.minVersion v &&
        decide (kindOf t.value = b.kind)) = none := by
      rw [List.find?_eq_none]
      intro b hb
      intro hpred
      simp only [Bool.and_eq_true, decide_eq_true_eq] at hpred
      have := hgate b hb hpred.1.1
      rw [hpred.1.2] at this
      cases this
    simp [matchTags, hfind]

/-- Witness for C5: the shadow_mode attribute (minimum version R2007) of a
fully explicit ATTDEF entity exported at R2000, and a code-284 tag read at
declared version R2000. -/
theorem c5_version_gating_witness :
    (attdefSchema ∈ schemaRegistry ∧ sampleEnt.schema = attdefSchema ∧
      roundtripReady sampleEnt = true ∧ sampleEnt.embedded = none ∧
      (⟨"shadow_mode", 284, .kInt, none, .R2007, .R2018, true⟩ : DXFAttr) ∈
        allAttrs attdefSchema ∧
      sampleEnt.ns.hasExplicit "shadow_mode" = true ∧
      (∀ t ∈ exportEntity sampleEnt .R2000 false,
        t.code ≠ (⟨"shadow_mode", 284, .kInt, none, .R2007, .R2018, true⟩ : DXFAttr).code)) ∧
    ((∀ b ∈ [(⟨"shadow_mode", 284, .kInt, none, .R2007, .R2018, true⟩ : DXFAttr)],
        b.code = (⟨284, .int 1⟩ : DXFTag).code → vle b.minVersion .R2000 = false) ∧
      matchTags .R2000 [⟨"shadow_mode", 284, .kInt, none, .R2007, .R2018, true⟩]
          [⟨284, .int 1⟩] []
        = ((matchTags .R2000 [⟨"shadow_mode", 284, .kInt, none, .R2007, .R2018, true⟩] [] []).1,
           ⟨284, .int 1⟩ ::
             (matchTags .R2000 [⟨"shadow_mode", 284, .kInt, none, .R2007, .R2018, true⟩] [] []).2)) :=
  ⟨⟨by decide, rfl, by decide, rfl, by decide, by decide,
    c5_version_gating.1 attdefSchema (by decide) false sampleEnt
      ⟨"shadow_mode", 284, .kInt, none, .R2007, .R2018, true⟩ rfl (by decide) rfl
      (by decide) rfl⟩,
   ⟨by decide,
    c5_version_gating.2 .R2000 [⟨"shadow_mode", 284, .kInt, none, .R2007, .R2018, true⟩]
      ⟨284, .int 1⟩ [] [] (by decide)⟩⟩


/-- Witness for C6: the color attribute after a set, a read and a discard. -/
theorem c6_namespace_get_set_invariant_witness :
    (findAttr attdefSchema "color"
        = some ⟨"color", 62, .kInt, some (.int 256), .R12, .R2018, true⟩ ∧
      (⟨"color", 62, .kInt, some (.int 256), .R12, .R2018, true⟩ : DXFAttr).adefault
        = some (.int 256) ∧
      (applyOps attdefSchema
        [NsOp.setA "height" (.float 2), NsOp.getA "color", NsOp.discardA "height"]
        ⟨[]⟩).hasExplicit "color" = false) ∧
    (((applyOps attdefSchema
          [NsOp.setA "height" (.float 2), NsOp.getA "color", NsOp.discardA "height"]
          ⟨[]⟩).hasExplicit "color" = false →
        nsGet attdefSchema (applyOps attdefSchema
          [NsOp.setA "height" (.float 2), NsOp.getA "color", NsOp.discardA "height"]
          ⟨[]⟩) "color" = .ok (.int 256)) ∧
      (nsGetS attdefSchema (applyOps attdefSchema
          [NsOp.setA "height" (.float 2), NsOp.getA "color", NsOp.discardA "height"]
          ⟨[]⟩) "color").2
        = applyOps attdefSchema
            [NsOp.setA "height" (.float 2), NsOp.getA "color", NsOp.discardA "height"] ⟨[]⟩ ∧
      (∀ (w : DXFValue) (ns2 : DXFNamespace),
        nsSet attdefSchema (applyOps attdefSchema
          [NsOp.setA "height" (.float 2), NsOp.getA "color", NsOp.discardA "height"]
          ⟨[]⟩) "color" w = .ok ns2 → ns2.hasExplicit "color" = true)) :=
  ⟨⟨by decide, rfl, by decide⟩,
   c6_namespace_get_set_invariant attdefSchema
     [NsOp.setA "height" (.float 2), NsOp.getA "color", NsOp.discardA "height"]
     "color" ⟨"color", 62, .kInt, some (.int 256), .R12, .R2018, true⟩ (.int 256)
     (by decide) rfl⟩

/-- Witness for C7: the insert attribute of the ATTDEF schema. -/
theorem c7_coordinate_atomicity_witness :
    (findAttr attdefSchema "insert"
        = some ⟨"insert", 10, .kVec, some (.vec 0 0 0), .R12, .R2018, true⟩ ∧
      (⟨"insert", 10, .kVec, some (.vec 0 0 0), .R12, .R2018, true⟩ : DXFAttr).kind
        = .kVec) ∧
    ((∀ x : Rat, nsSet attdefSchema ⟨[]⟩ "insert" (.float x) = .error .InvalidValueKind) ∧
      (∀ x y z : Rat, ∃ ns2, nsSet attdefSchema ⟨[]⟩ "insert" (.vec x y z) = .ok ns2 ∧
        nsGet attdefSchema ns2 "insert" = .ok (.vec x y z))) :=
  ⟨⟨by decide, rfl⟩,
   c7_coordinate_atomicity attdefSchema ⟨[]⟩ "insert"
     ⟨"insert", 10, .kVec, some (.vec 0 0 0), .R12, .R2018, true⟩ (by decide) rfl⟩

/-- Witness for C8: the sample embedded-MTEXT ATTDEF entity, whose layer is
"AttribLayer"-like sample "0" and color 7. -/
theorem c8_virtual_entity_graphics_witness :
    (sampleEmbEnt.embedded = some (embNs, []) ∧
      nsGet sampleEmbEnt.schema sampleEmbEnt.ns "layer" = .ok (.str "0") ∧
      nsGet sampleEmbEnt.schema sampleEmbEnt.ns "color" = .ok (.int 7)) ∧
    (∃ m, virtualMtextEntity sampleEmbEnt = some m ∧
      nsGet m.schema m.ns "layer" = .ok (.str "0") ∧
      nsGet m.schema m.ns "color" = .ok (.int 7)) :=
  ⟨⟨rfl, by decide, by decide⟩,
   c8_virtual_entity_graphics sampleEmbEnt embNs [] (.str "0") (.int 7)
     rfl (by decide) (by decide)⟩

/-- Witness for C9: the concrete double-embedded-marker record. -/
theorem c9_double_embedded_marker_witness :
    ((∀ t ∈ ([⟨5, .str "A"⟩] ++ [⟨8, .str "0"⟩] ++ [⟨2, .str "T"⟩] : List DXFTag), bodyOK t) ∧
      (∀ t ∈ ([⟨1, .str "X"⟩] : List DXFTag), t.code ≠ 101 ∧ t.code < 1000) ∧
      (∀ t ∈ ([⟨7, .str "Y"⟩] : List DXFTag), t.code < 1000)) ∧
    (groupTags true ([⟨5, .str "A"⟩] ++ [tag100 "S1"] ++ [⟨8, .str "0"⟩] ++ [tag100 "S2"] ++
        [⟨2, .str "T"⟩] ++ (⟨101, .str "Embedded Object"⟩ ::
          ([⟨1, .str "X"⟩] ++ (⟨101, .str "Embedded Object"⟩ :: [⟨7, .str "Y"⟩]))))
        = .error .SchemaViolation ∧
      groupTags false ([⟨5, .str "A"⟩] ++ [tag100 "S1"] ++ [⟨8, .str "0"⟩] ++ [tag100 "S2"] ++
        [⟨2, .str "T"⟩] ++ (⟨101, .str "Embedded Object"⟩ ::
          ([⟨1, .str "X"⟩] ++ (⟨101, .str "Embedded Object"⟩ :: [⟨7, .str "Y"⟩]))))
        = .ok ⟨[(none, [⟨5, .str "A"⟩]), (some "S1", [⟨8, .str "0"⟩]),
            (some "S2", [⟨2, .str "T"⟩])], some [⟨1, .str "X"⟩],
            ⟨101, .str "Embedded Object"⟩ :: [⟨7, .str "Y"⟩], []⟩) :=
  ⟨⟨by decide, by decide, by decide⟩,
   c9_double_embedded_marker [⟨5, .str "A"⟩] [⟨8, .str "0"⟩] [⟨2, .str "T"⟩]
     [⟨1, .str "X"⟩] [⟨7, .str "Y"⟩] "S1" "S2" (.str "Embedded Object")
     (.str "Embedded Object") (by decide) (by decide) (by decide)⟩

/-- Witness for C10: the sample embedded MTEXT content with a paragraph
separator decodes to two lines. -/
theorem c10_plain_mtext_decoding_witness :
    (sampleEmbEnt.embedded = some (embNs, []) ∧
      lookupE embNs.entries "text" = some (.str "TEST VENUE\\PTEST FLOOR PLAN")) ∧
    (plainMtext sampleEmbEnt = some (plainMtextStr "TEST VENUE\\PTEST FLOOR PLAN") ∧
      (∃ m, virtualMtextEntity sampleEmbEnt = some m ∧
        plainText m = some (plainMtextStr "TEST VENUE\\PTEST FLOOR PLAN")) ∧
      plainMtextStr "TEST VENUE\\PTEST FLOOR PLAN" = "TEST VENUE\nTEST FLOOR PLAN") :=
  ⟨⟨rfl, by decide⟩,
   c10_plain_mtext_decoding sampleEmbEnt embNs [] "TEST VENUE\\PTEST FLOOR PLAN"
     rfl (by decide)⟩

end DxfCore
